import Mathlib

/-
Shallow embedding of v8's maglev straight-forward register allocator
(src/maglev/maglev-regalloc.cc, src/maglev/maglev-regalloc-data.h).

Modelling conventions:
* Registers are identified by their allocation index 0 .. regCount-1
  (the C++ maps register identity to such an index through
  MapRegisterToIndex / MapIndexToRegister; that bijection carries no
  information the allocator depends on, so we work in index space).
* The C++ RegList bitset (free_registers_) becomes a duplicate-free
  List Nat; Register::TakeAny, which takes the lowest set bit, becomes
  taking the minimum element.
* std::vector free_slots_ with push_back / back / pop_back is a LIFO
  stack; it becomes a Lean list used at the head (cons = push_back,
  head = back, tail = pop_back).
* ValueNode objects live in a list indexed by their id; the allocator
  mutates them through updNode.
* Fallible or undefined behaviour (a DCHECK-free out-of-bounds access,
  a CHECK failure, an UNREACHABLE) is modelled by Option, with none for
  the undefined case.
-/

namespace MaglevRegalloc

/-- Allocated operand: a register (by allocation index) or a stack slot
(by index; negative indices are the incoming-parameter area, compare
compiler::AllocatedOperand REGISTER / STACK_SLOT). -/
inductive Operand where
  | reg (i : Nat)
  | slot (idx : Int)
deriving DecidableEq

/-- The allocator-visible fields of a ValueNode (maglev-ir.h):
its id, the id of its next use, the end of its live range, the set of
register indices it currently occupies, its spill slot (if spilled) and
its result operand (once allocated). -/
structure VNode where
  nid : Nat
  next_use : Nat
  live_end : Nat
  registers : List Nat
  spill : Option Int
  result : Option Operand
deriving DecidableEq

/-- The state of StraightForwardRegisterAllocator: the register file
register_values_, the free-register set free_registers_, the value
nodes, the spill-slot bookkeeping top_of_stack_ / free_slots_, and the
gap moves emitted so far (AddMoveBeforeCurrentNode; their placement in
the instruction stream is irrelevant to the claims, so we record the
source/target pairs). -/
structure RA where
  regCount : Nat
  register_values : List (Option Nat)
  free_registers : List Nat
  nodes : List VNode
  top_of_stack : Nat
  free_slots : List Int
  moves : List (Operand × Operand)
deriving DecidableEq

/-- Look a ValueNode up by id. -/
def getNode (s : RA) (nid : Nat) : Option VNode :=
  s.nodes.find? (fun v => decide (v.nid = nid))

/-- Mutate the ValueNode with the given id in place. -/
def updNode (s : RA) (nid : Nat) (f : VNode → VNode) : RA :=
  { s with nodes := s.nodes.map (fun v => if v.nid = nid then f v else v) }

/-- register_values_[i] (reads out of range as empty). -/
def cellGet (s : RA) (i : Nat) : Option Nat :=
  s.register_values.getD i none

/-- register_values_[i] = v. -/
def cellSet (s : RA) (i : Nat) (v : Option Nat) : RA :=
  { s with register_values := s.register_values.set i v }

/-- Register::InsertInto on the free-register bitset. -/
def insertReg (i : Nat) (l : List Nat) : List Nat :=
  if i ∈ l then l else i :: l

/-- Register::RemoveFrom on the free-register bitset. -/
def removeReg (i : Nat) (l : List Nat) : List Nat :=
  l.filter (fun j => decide (j ≠ i))

/-- Lowest index in a register list (Register::TakeAny / first() take
the lowest set bit of a RegList). -/
def regListMin (l : List Nat) : Option Nat :=
  l.foldl (fun a x => match a with
    | none => some x
    | some m => some (min m x)) none

/-- Modelled from the spec: ValueNode::is_dead() lives in maglev-ir.h,
which is not under src/; section 3 of the spec says is_dead is true when
the next-use id is past the live-range end. -/
def isDeadV (v : VNode) : Bool :=
  decide (v.live_end < v.next_use)

/-- Modelled from the spec: ValueNode::has_valid_live_range() lives in
maglev-ir.h; section 4.4 step 7 calls a node with no valid live range
"produced-but-dead", i.e. dead already at its definition. -/
def hasValidLiveRange (v : VNode) : Bool :=
  !(isDeadV v)

/-- Spill slot of a node, if spilled. -/
def nodeSpillOf (s : RA) (nid : Nat) : Option Int :=
  (getNode s nid).bind (fun v => v.spill)

/-- Register set of a node. -/
def nodeRegsOf (s : RA) (nid : Nat) : List Nat :=
  ((getNode s nid).map (fun v => v.registers)).getD []

/-- Modelled from the spec: ValueNode::allocation() lives in
maglev-ir.h; per sections 4.5/4.6 it is the node's current location:
its first register when it holds one, otherwise its spill slot. -/
def allocationO (s : RA) (nid : Nat) : Option Operand :=
  match getNode s nid with
  | none => none
  | some v =>
    match regListMin v.registers with
    | some r => some (Operand.reg r)
    | none => v.spill.map Operand.slot

/-- StraightForwardRegisterAllocator::FreeRegister: clear the cell and
put the register into the free set. -/
def freeRegister (s : RA) (i : Nat) : RA :=
  let s1 := cellSet s i none
  { s1 with free_registers := insertReg i s1.free_registers }

/-- StraightForwardRegisterAllocator::SetRegister: point the cell at the
node and add the register to the node's register set. -/
def setRegister (s : RA) (i : Nat) (nid : Nat) : RA :=
  let s1 := cellSet s i (some nid)
  updNode s1 nid (fun v => { v with registers := insertReg i v.registers })

/-- Register::TakeAny on free_registers_: remove and return the lowest
free register, if any. -/
def takeAnyFree (s : RA) : Option (Nat × RA) :=
  match regListMin s.free_registers with
  | none => none
  | some m => some (m, { s with free_registers := removeReg m s.free_registers })

/-- StraightForwardRegisterAllocator::TryAllocateRegister: fail when no
register is free, otherwise take any free register and set it. -/
def tryAllocateRegister (s : RA) (nid : Nat) : Option (RA × Operand) :=
  match takeAnyFree s with
  | none => none
  | some (r, s1) => some (setRegister s1 r nid, Operand.reg r)

/-- StraightForwardRegisterAllocator::AllocateSpillSlot: pop the back of
free_slots_ when non-empty, else bump top_of_stack_, and record the slot
on the node. -/
def allocateSpillSlot (s : RA) (nid : Nat) : RA :=
  match s.free_slots with
  | [] =>
    let s1 := { s with top_of_stack := s.top_of_stack + 1 }
    updNode s1 nid (fun v => { v with spill := some (Int.ofNat s.top_of_stack) })
  | sl :: rest =>
    updNode { s with free_slots := rest } nid (fun v => { v with spill := some sl })

/-- StraightForwardRegisterAllocator::Spill: no-op when the node is
already spilled, otherwise allocate a spill slot for it. -/
def spillNode (s : RA) (nid : Nat) : RA :=
  match getNode s nid with
  | none => s
  | some v => if v.spill.isSome then s else allocateSpillSlot s nid

/-- Modelled from the spec: FreeRegisters(node) is declared in
maglev-regalloc.h, which is not under src/; per sections 4.4 step 3 and
4.5 of the spec it frees every register the node currently occupies
(returning each to the free set) and clears the node's register set. -/
def freeRegistersOf (s : RA) (nid : Nat) : RA :=
  let s1 := (nodeRegsOf s nid).foldl (fun st i => freeRegister st i) s
  updNode s1 nid (fun v => { v with registers := [] })

/-- The furthest-next-use scan of
StraightForwardRegisterAllocator::FreeSomeRegister: furthest_use starts
at 0 and longest at -1 (modelled as none); an occupied register is
selected only when its holder's next_use is strictly larger than the
best so far. -/
def freeSomeRegisterIdx (s : RA) : Option Nat :=
  ((List.range s.regCount).foldl
    (fun (acc : Nat × Option Nat) i =>
      match cellGet s i with
      | none => acc
      | some nid =>
        let use := ((getNode s nid).map (fun v => v.next_use)).getD 0
        if acc.1 < use then (use, some i) else acc)
    (0, none)).2

/-- StraightForwardRegisterAllocator::FreeSomeRegister: the source calls
FreeRegister(longest) with no check on longest; when every register is
empty, longest is still -1 and the C++ writes register_values_[-1], an
out-of-bounds access with no defined result — modelled as none. -/
def freeSomeRegister (s : RA) : Option RA :=
  match freeSomeRegisterIdx s with
  | some i => some (freeRegister s i)
  | none => none

/-- StraightForwardRegisterAllocator::AllocateRegister: evict via
FreeSomeRegister when nothing is free, then TryAllocateRegister (whose
failure would trip the DCHECK on the allocation). -/
def allocateRegister (s : RA) (nid : Nat) : Option (RA × Operand) :=
  match (if s.free_registers = [] then freeSomeRegister s else some s) with
  | none => none
  | some s1 => tryAllocateRegister s1 nid

/-- The tail of StraightForwardRegisterAllocator::Free, after the cell
is cleared and the register dropped from the holder's set: done when the
holder has another register or is spilled; otherwise move the value to a
free register (emitting a gap move) or, failing that, spill it. -/
def freeEvictTail (s2 : RA) (regIdx nid : Nat) : RA :=
  if nodeRegsOf s2 nid ≠ [] then s2
  else if (nodeSpillOf s2 nid).isSome then s2
  else match takeAnyFree s2 with
    | some (t, s3) =>
      let s4 := setRegister s3 t nid
      { s4 with moves := (Operand.reg regIdx, Operand.reg t) :: s4.moves }
    | none => spillNode s2 nid

/-- StraightForwardRegisterAllocator::Free (the eviction path): clear
the cell without touching the free set, drop the register from the
holder's set, then run the move-or-spill tail. -/
def free (s : RA) (regIdx : Nat) : RA :=
  match cellGet s regIdx with
  | none => s
  | some nid =>
    freeEvictTail
      (updNode (cellSet s regIdx none) nid
        (fun v => { v with registers := removeReg regIdx v.registers }))
      regIdx nid

/-- StraightForwardRegisterAllocator::ForceAllocate: take the register
from the free set if empty, keep it if it already holds the node,
otherwise Free it first; then set it. -/
def forceAllocate (s : RA) (regIdx : Nat) (nid : Nat) : RA × Operand :=
  match cellGet s regIdx with
  | none =>
    let s1 := { s with free_registers := removeReg regIdx s.free_registers }
    (setRegister s1 regIdx nid, Operand.reg regIdx)
  | some m =>
    if m = nid then (s, Operand.reg regIdx)
    else
      let s1 := free s regIdx
      (setRegister s1 regIdx nid, Operand.reg regIdx)

/-- One iteration of the SpillRegisters loop: spill the holder of
register i, if any. -/
def spillStep (st : RA) (i : Nat) : RA :=
  match cellGet st i with
  | none => st
  | some nid => spillNode st nid

/-- StraightForwardRegisterAllocator::SpillRegisters: spill every
register holder, leaving the registers occupied. -/
def spillRegisters (s : RA) : RA :=
  (List.range s.regCount).foldl spillStep s

/-- One iteration of the SpillAndClearRegisters loop: spill the holder
of register i and free all of its registers. -/
def spillClearStep (st : RA) (i : Nat) : RA :=
  match cellGet st i with
  | none => st
  | some nid => freeRegistersOf (spillNode st nid) nid

/-- StraightForwardRegisterAllocator::SpillAndClearRegisters: spill
every register holder and free all of its registers. -/
def spillAndClearRegisters (s : RA) : RA :=
  (List.range s.regCount).foldl spillClearStep s

/-- Operand policies valid on inputs (compiler::UnallocatedOperand). -/
inductive InputPolicy where
  | registerOrSlot
  | registerOrSlotOrConstant
  | fixedRegister (r : Nat)
  | mustHaveRegister
deriving DecidableEq

/-- An Input: the producing node, the id of the producer's next use
after this one, and the operand policy. -/
structure InputRec where
  producer : Nat
  next_use_id : Nat
  policy : InputPolicy
deriving DecidableEq

/-- StraightForwardRegisterAllocator::UpdateInputUse: return immediately
when the producer is already dead; otherwise advance its next use, and
when that kills it free its registers and recycle its spill slot if the
slot index is positive. -/
def updateInputUse (s : RA) (inp : InputRec) : RA :=
  match getNode s inp.producer with
  | none => s
  | some v =>
    if isDeadV v then s
    else
      let s1 := updNode s inp.producer (fun w => { w with next_use := inp.next_use_id })
      match getNode s1 inp.producer with
      | none => s1
      | some v1 =>
        if isDeadV v1 then
          let s2 := freeRegistersOf s1 inp.producer
          match v1.spill with
          | some sl => if 0 < sl then { s2 with free_slots := sl :: s2.free_slots } else s2
          | none => s2
        else s1

/-- The register-file consistency invariant of section 3 of the spec,
as an executable check: a register index is in the free set iff its cell
is empty, every node's register set stays inside [0, regCount), and a
node's register set is exactly the set of cells pointing at it. -/
def consistentB (s : RA) : Bool :=
  ((List.range s.regCount).all (fun i =>
      decide ((cellGet s i = none) ↔ i ∈ s.free_registers))) &&
  (s.nodes.all (fun v =>
      (v.registers.all (fun i => decide (i < s.regCount))) &&
      ((List.range s.regCount).all (fun i =>
          decide ((i ∈ v.registers) ↔ cellGet s i = some v.nid)))))

/-- Concrete eviction scenario for claim C1: two allocatable registers,
both occupied (v1 with next use 5 in r0, v2 with next use 9 in r1), and
a fresh value v3 that needs a register. -/
def c1ex : RA :=
  { regCount := 2
    register_values := [some 1, some 2]
    free_registers := []
    nodes := [⟨1, 5, 20, [0], none, none⟩, ⟨2, 9, 30, [1], none, none⟩,
              ⟨3, 12, 40, [], none, none⟩]
    top_of_stack := 0
    free_slots := []
    moves := [] }

/-- Concrete state for claim C3 (same shape as the C1 scenario, its own
constant): consistent before the eviction step. -/
def c3ex : RA :=
  { regCount := 2
    register_values := [some 1, some 2]
    free_registers := []
    nodes := [⟨1, 5, 20, [0], none, none⟩, ⟨2, 9, 30, [1], none, none⟩,
              ⟨3, 12, 40, [], none, none⟩]
    top_of_stack := 0
    free_slots := []
    moves := [] }

/-- Concrete state for claim C5 with zero occupied registers. -/
def c5empty : RA :=
  { regCount := 2
    register_values := [none, none]
    free_registers := [0, 1]
    nodes := []
    top_of_stack := 0
    free_slots := []
    moves := [] }

/-- Concrete state for claim C5 with occupied registers (holders with
next uses 5 and 9). -/
def c5occ : RA :=
  { regCount := 2
    register_values := [some 1, some 2]
    free_registers := []
    nodes := [⟨1, 5, 20, [0], none, none⟩, ⟨2, 9, 30, [1], none, none⟩]
    top_of_stack := 0
    free_slots := []
    moves := [] }

/-- A register cell of a join block's register_state (RegisterState in
maglev-regalloc-data.h with is_initialized = true): a node cell holds an
optional ValueNode, a merge cell holds the node plus one operand per
predecessor. -/
inductive RegCell where
  | node (n : Option Nat)
  | merge (m : Nat) (ops : List Operand)
deriving DecidableEq

/-- The ValueNode decoded from a cell (LoadMergeState's node output). -/
def cellNodeOf : RegCell → Option Nat
  | RegCell.node n => n
  | RegCell.merge m _ => some m

/-- StraightForwardRegisterAllocator::EnsureInRegister as a check:
some cell of the target state decodes to the incoming node. -/
def ensureInRegisterB (ts : List RegCell) (nid : Nat) : Bool :=
  ts.any (fun c => decide (cellNodeOf c = some nid))

/-- Everything IsLiveAtTarget and MergeRegisterValues need to know about
the edge: the source control node's id, the target's control-node id,
first id, first non-gap-move id, and the target's predecessor count and
this edge's predecessor id. -/
structure ECtx where
  sourceId : Nat
  targetControlId : Nat
  targetFirstId : Nat
  targetFirstNonGapId : Nat
  predCount : Nat
  predId : Nat
deriving DecidableEq

/-- IsLiveAtTarget (maglev-regalloc.cc, anonymous namespace): false for
null or dead nodes; on a loop back-edge (target control id at most the
source id) the node must predate the target's first non-gap-move id;
on a forward edge its live range must reach the target's first id. -/
def isLiveAtTarget (s : RA) (n : Option Nat) (ctx : ECtx) : Bool :=
  match n with
  | none => false
  | some nid =>
    match getNode s nid with
    | none => false
    | some v =>
      if isDeadV v then false
      else if ctx.targetControlId ≤ ctx.sourceId then
        decide (v.nid < ctx.targetFirstNonGapId)
      else
        decide (ctx.targetFirstId ≤ v.live_end)

/-- The `incoming` of MergeRegisterValues: the current holder of
register i, nulled out when not live at the target. -/
def incomingOf (s : RA) (ctx : ECtx) (i : Nat) : Option Nat :=
  let n := cellGet s i
  if isLiveAtTarget s n ctx then n else none

/-- The body of the per-register loop of
StraightForwardRegisterAllocator::MergeRegisterValues, for register i
with current target cell `cell`: keep the cell when incoming equals the
cell's node (recording a register operand in an existing merge);
otherwise record the merge cell node's allocation at predecessor_id
(checking EnsureInRegister when a live incoming value is spilled);
otherwise, for a node cell that disagrees, either check EnsureInRegister
(empty cell, unspilled incoming) or upgrade the node cell to a merge
cell whose operands are all info-so-far with this predecessor's entry
overwritten.  A failed CHECK or an undefined allocation is none. -/
def mergeOneReg (s : RA) (ctx : ECtx) (ts : List RegCell) (i : Nat)
    (cell : RegCell) : Option RegCell :=
  match cell with
  | RegCell.merge m ops =>
    if incomingOf s ctx i = some m then
      some (RegCell.merge m (ops.set ctx.predId (Operand.reg i)))
    else
      match allocationO s m with
      | none => none
      | some a =>
        match incomingOf s ctx i with
        | some inc =>
          if (nodeSpillOf s inc).isSome then
            if ensureInRegisterB ts inc then
              some (RegCell.merge m (ops.set ctx.predId a))
            else none
          else some (RegCell.merge m (ops.set ctx.predId a))
        | none => some (RegCell.merge m (ops.set ctx.predId a))
  | RegCell.node n =>
    if incomingOf s ctx i = n then some (RegCell.node n)
    else
      match n with
      | some nd =>
        match allocationO s nd with
        | none => none
        | some a =>
          some (RegCell.merge nd
            ((List.replicate ctx.predCount (Operand.reg i)).set ctx.predId a))
      | none =>
        match incomingOf s ctx i with
        | none => none
        | some inc =>
          match nodeSpillOf s inc with
          | none =>
            if ensureInRegisterB ts inc then some (RegCell.node none) else none
          | some sl =>
            some (RegCell.merge inc
              ((List.replicate ctx.predCount (Operand.slot sl)).set ctx.predId
                (Operand.reg i)))

/-- Sequential walk of the register cells: the C++ mutates target_state
in place, so later EnsureInRegister checks see earlier cell upgrades. -/
def mergeLoop (s : RA) (ctx : ECtx) : List Nat → List RegCell
    → Option (List RegCell)
  | [], ts => some ts
  | i :: rest, ts =>
    match ts.get? i with
    | none => none
    | some cell =>
      match mergeOneReg s ctx ts i cell with
      | none => none
      | some cell2 => mergeLoop s ctx rest (ts.set i cell2)

/-- StraightForwardRegisterAllocator::InitializeBranchTargetRegisterValues:
first edge into the join; every cell becomes a node cell holding the
register's live incoming value (or null). -/
def initBranchTargetRegisterValues (s : RA) (ctx : ECtx) : List RegCell :=
  (List.range s.regCount).map (fun i => RegCell.node (incomingOf s ctx i))

/-- StraightForwardRegisterAllocator::MergeRegisterValues: when the
target state is not yet initialized (modelled as none), initialize it
from this edge; otherwise run the per-register merge loop. -/
def mergeRegisterValues (s : RA) (ctx : ECtx) (ts? : Option (List RegCell)) :
    Option (List RegCell) :=
  match ts? with
  | none => some (initBranchTargetRegisterValues s ctx)
  | some ts => mergeLoop s ctx (List.range s.regCount) ts

/-- Concrete merge scenario for claim C2: one register, r0 held by v5
(live at the target, not spilled); the target cell for r0 is a merge
cell expecting v9, which is spilled at slot 2. -/
def c2s : RA :=
  { regCount := 1
    register_values := [some 5]
    free_registers := []
    nodes := [⟨5, 4, 50, [0], none, none⟩, ⟨9, 6, 60, [], some 2, none⟩]
    top_of_stack := 3
    free_slots := []
    moves := [] }

/-- Edge context for the C2 scenario: a forward edge (target control id
20 above source id 10), target first id 15, two predecessors, this edge
is predecessor 0. -/
def c2ctx : ECtx :=
  { sourceId := 10
    targetControlId := 20
    targetFirstId := 15
    targetFirstNonGapId := 15
    predCount := 2
    predId := 0 }

/-- Target register state for the C2 scenario. -/
def c2ts : List RegCell := [RegCell.merge 9 [Operand.reg 0, Operand.reg 0]]

/-- A control node as seen by ComputePostDominatingHoles: its id,
whether it Is<Return> or Is<JumpLoop>, and its
next_post_dominating_hole link (by id). -/
structure HNode where
  hid : Nat
  isRet : Bool
  isLoop : Bool
  nextHole : Option Nat
deriving DecidableEq

/-- Resolve a next-hole link against the control nodes of the graph. -/
def lookupH (env : List HNode) (i : Nat) : Option HNode :=
  env.find? (fun h => decide (h.hid = i))

/-- The merge loop of
StraightForwardRegisterAllocator::ComputePostDominatingHoles for a
conditional control node, on the two NearestPostDominatingHole results
of its branches: while the two differ, swap so that `first` is the one
with the smaller id, stop at `second` when `first` is a Return or
JumpLoop, else advance `first` along its own next-hole chain.  Node
identity is id equality (ids are unique); a dangling link or exhausted
fuel is none (the C++ loop relies on well-formed chains to
terminate). -/
def meetCode : Nat → List HNode → HNode → HNode → Option HNode
  | 0, _, _, _ => none
  | fuel+1, env, a, b =>
    if a.hid = b.hid then some a
    else
      let first := if b.hid < a.hid then b else a
      let second := if b.hid < a.hid then a else b
      if first.isRet || first.isLoop then some second
      else
        match first.nextHole with
        | none => none
        | some nx =>
          match lookupH env nx with
          | none => none
          | some f2 => meetCode fuel env f2 second

/-- The merge loop as the CLAIM words it (for comparison with the
source): repeatedly advance the one with the LARGER id along its own
next-hole chain, terminating at the other node when the advancing one
is a Return or loop back-edge. -/
def meetClaim : Nat → List HNode → HNode → HNode → Option HNode
  | 0, _, _, _ => none
  | fuel+1, env, a, b =>
    if a.hid = b.hid then some a
    else
      let adv := if a.hid < b.hid then b else a
      let other := if a.hid < b.hid then a else b
      if adv.isRet || adv.isLoop then some other
      else
        match adv.nextHole with
        | none => none
        | some nx =>
          match lookupH env nx with
          | some a2 => meetClaim fuel env a2 other
          | none => none

/-- A non-fallthrough Jump at id 5 whose next hole is the Return. -/
def c4jump : HNode := ⟨5, false, false, some 10⟩

/-- A Return at id 10. -/
def c4ret : HNode := ⟨10, true, false, none⟩

/-- The two control nodes of the C4 scenario. -/
def c4env : List HNode := [c4jump, c4ret]

/-- Concrete state for the C10 witness: v4 is dead (next use 21 past
live-range end 20) yet still spilled at slot 1 and recorded in r0. -/
def c10s : RA :=
  { regCount := 1
    register_values := [some 4]
    free_registers := []
    nodes := [⟨4, 21, 20, [0], some 1, none⟩]
    top_of_stack := 2
    free_slots := []
    moves := [] }

/-- Executable form of "every register holder is a known node". -/
def holdersPresentB (s : RA) : Bool :=
  (List.range s.regCount).all (fun i =>
    match cellGet s i with
    | none => true
    | some nid => (getNode s nid).isSome)

/-- Concrete state for the C7 witness: r0 holds the live, unspilled v1,
r1 is free. -/
def c7s : RA :=
  { regCount := 2
    register_values := [some 1, none]
    free_registers := [1]
    nodes := [⟨1, 6, 9, [0], none, none⟩]
    top_of_stack := 0
    free_slots := []
    moves := [] }

/-- Result operand policies handled by AllocateNodeResult
(FIXED_SLOT via basic_policy, then FIXED_REGISTER, MUST_HAVE_REGISTER
and SAME_AS_INPUT; the remaining extended policies are UNREACHABLE). -/
inductive ResultPolicy where
  | fixedSlot (idx : Int)
  | fixedRegister (r : Nat)
  | mustHaveRegister
  | sameAsInput (k : Nat)
deriving DecidableEq

/-- What AllocateNode needs to know about a node: its id, inputs,
temporaries count, the is_call / can_deopt property bits, and the
result policy (none when the node is not a ValueNode). -/
structure NodeInfo where
  nid : Nat
  inputs : List InputRec
  temporaries_needed : Nat
  is_call : Bool
  can_deopt : Bool
  result_policy : Option ResultPolicy
deriving DecidableEq

/-- StraightForwardRegisterAllocator::AssignInput: dispatch on the
input's policy — REGISTER_OR_SLOT(_OR_CONSTANT) take the producer's
current allocation verbatim, FIXED_REGISTER force-allocates,
MUST_HAVE_REGISTER keeps a current register or allocates one — and emit
a gap move when the assigned location differs from the producer's
previous location. -/
def assignInput (s : RA) (inp : InputRec) : Option (RA × Operand) :=
  match allocationO s inp.producer with
  | none => none
  | some location =>
    let step : Option (RA × Operand) :=
      match inp.policy with
      | InputPolicy.registerOrSlot => some (s, location)
      | InputPolicy.registerOrSlotOrConstant => some (s, location)
      | InputPolicy.fixedRegister r => some (forceAllocate s r inp.producer)
      | InputPolicy.mustHaveRegister =>
        match location with
        | Operand.reg _ => some (s, location)
        | Operand.slot _ => allocateRegister s inp.producer
    match step with
    | none => none
    | some (s1, assigned) =>
      if location = assigned then some (s1, assigned)
      else some ({ s1 with moves := (location, assigned) :: s1.moves }, assigned)

/-- The input loop of AllocateNode, collecting each input's assigned
operand in order. -/
def assignInputs (s : RA) : List InputRec → Option (RA × List Operand)
  | [] => some (s, [])
  | inp :: rest =>
    match assignInput s inp with
    | none => none
    | some (s1, op) =>
      match assignInputs s1 rest with
      | none => none
      | some (s2, ops) => some (s2, op :: ops)

/-- k iterations of FreeSomeRegister (the eviction loop of
AssignTemporaries). -/
def evictLoop : Nat → RA → Option RA
  | 0, s => some s
  | k + 1, s =>
    match freeSomeRegister s with
    | none => none
    | some s1 => evictLoop k s1

/-- StraightForwardRegisterAllocator::AssignTemporaries: evict until as
many registers are free as temporaries are needed (the recorded
temporary set itself is the free set and is kept implicitly). -/
def assignTemporaries (s : RA) (needed : Nat) : Option RA :=
  evictLoop (needed - s.free_registers.length) s

/-- The step-7 tail of AllocateNodeResult: immediately kill the register
use when the node has no valid live range and its result is a
register. -/
def killIfInvalid (s : RA) (nid : Nat) : RA :=
  match getNode s nid with
  | none => s
  | some v =>
    if (!(hasValidLiveRange v)) &&
        (match v.result with
         | some (Operand.reg _) => true
         | _ => false) then
      freeRegistersOf s nid
    else s

/-- StraightForwardRegisterAllocator::AllocateNodeResult: SetNoSpillOrHint,
then FIXED_SLOT spills eagerly to the fixed (negative) slot and returns;
FIXED_REGISTER / SAME_AS_INPUT force-allocate, MUST_HAVE_REGISTER
allocates any register; finally the produced-but-dead register kill. -/
def allocateNodeResult (s : RA) (nid : Nat) (p : ResultPolicy)
    (assigned : List Operand) : Option RA :=
  let s0 := updNode s nid (fun v => { v with spill := none })
  match p with
  | ResultPolicy.fixedSlot idx =>
    some (updNode s0 nid
      (fun v => { v with result := some (Operand.slot idx), spill := some idx }))
  | ResultPolicy.fixedRegister r =>
    let (s1, op) := forceAllocate s0 r nid
    some (killIfInvalid (updNode s1 nid (fun v => { v with result := some op })) nid)
  | ResultPolicy.mustHaveRegister =>
    match allocateRegister s0 nid with
    | none => none
    | some (s1, op) =>
      some (killIfInvalid (updNode s1 nid (fun v => { v with result := some op })) nid)
  | ResultPolicy.sameAsInput k =>
    match assigned.get? k with
    | some (Operand.reg r) =>
      let (s1, op) := forceAllocate s0 r nid
      some (killIfInvalid (updNode s1 nid (fun v => { v with result := some op })) nid)
    | _ => none

/-- StraightForwardRegisterAllocator::AllocateNode: assign inputs,
assign temporaries, update input uses, spill-and-clear on a call, spill
(keeping registers) on a possible deopt, then allocate the result if the
node produces a value. -/
def allocateNode (s : RA) (n : NodeInfo) : Option RA :=
  match assignInputs s n.inputs with
  | none => none
  | some (s1, assigned) =>
    match assignTemporaries s1 n.temporaries_needed with
    | none => none
    | some s2 =>
      let s3 := n.inputs.foldl updateInputUse s2
      let s4 := if n.is_call then spillAndClearRegisters s3 else s3
      let s5 := if n.can_deopt then spillRegisters s4 else s4
      match n.result_policy with
      | none => some s5
      | some p => allocateNodeResult s5 n.nid p assigned

/-- The invariant SpillAndClearRegisters needs and maintains: the file
has the right length, empty cells are free, and every holder exists
with a register set equal to the set of cells pointing at it. -/
def SAC_Inv (N : Nat) (st : RA) : Prop :=
  st.register_values.length = N ∧
  (∀ i, i < N → cellGet st i = none → i ∈ st.free_registers) ∧
  (∀ i nid, cellGet st i = some nid →
    (getNode st nid).isSome = true ∧
    (∀ j, cellGet st j = some nid ↔ j ∈ nodeRegsOf st nid))

/-- Concrete state for the C6 witness: r0 holds the unspilled v1, r1 is
free. -/
def c6ws : RA :=
  { regCount := 2
    register_values := [some 1, none]
    free_registers := [1]
    nodes := [⟨1, 6, 9, [0], none, none⟩]
    top_of_stack := 0
    free_slots := []
    moves := [] }

/-- Concrete scenario refuting the literal C6: a call node v7 with one
allocatable register; r0 holds the live v4 before the call and the
call's result policy is the fixed register r0 (a call's return
register). -/
def c6s : RA :=
  { regCount := 1
    register_values := [some 4]
    free_registers := []
    nodes := [⟨4, 8, 20, [0], none, none⟩, ⟨7, 9, 30, [], none, none⟩]
    top_of_stack := 0
    free_slots := []
    moves := [] }

/-- The call node of the C6 counterexample: no inputs, no temporaries,
is_call, a live fixed-register result. -/
def c6n : NodeInfo :=
  { nid := 7
    inputs := []
    temporaries_needed := 0
    is_call := true
    can_deopt := false
    result_policy := some (ResultPolicy.fixedRegister 0) }

/-- A phi as the phi-placement passes see it: its id and its inputs'
allocated operands (phi inputs are materialized on predecessor
edges). -/
structure PhiRec where
  pid : Nat
  inputs : List Operand
deriving DecidableEq

/-- Whether a phi's result operand is allocated
(result().operand().IsAllocated()). -/
def phiResultAllocated (s : RA) (pid : Nat) : Bool :=
  ((getNode s pid).map (fun v => v.result.isSome)).getD false

/-- StraightForwardRegisterAllocator::TryAllocateToInput: walk the
phi's inputs; at the first input allocated in a register whose cell is
empty, force-allocate the phi there and record the result. -/
def tryAllocateToInput (s : RA) (pid : Nat) : List Operand → RA
  | [] => s
  | op :: rest =>
    match op with
    | Operand.reg r =>
      if cellGet s r = none then
        let p := forceAllocate s r pid
        updNode p.1 pid (fun v => { v with result := some p.2 })
      else tryAllocateToInput s pid rest
    | Operand.slot _ => tryAllocateToInput s pid rest

/-- First phi pass (AllocateRegisters): SetNoSpillOrHint, then try to
allocate the phi to one of its input registers. -/
def phiReuseStep (st : RA) (phi : PhiRec) : RA :=
  tryAllocateToInput (updNode st phi.pid (fun v => { v with spill := none }))
    phi.pid phi.inputs

/-- Second phi pass: a still-unassigned phi takes any free register. -/
def phiFreeStep (st : RA) (phi : PhiRec) : RA :=
  if phiResultAllocated st phi.pid then st
  else
    match tryAllocateRegister st phi.pid with
    | none => st
    | some (st1, op) =>
      updNode st1 phi.pid (fun v => { v with result := some op })

/-- Third phi pass: a still-unassigned phi gets a fresh spill slot as
its result operand. -/
def phiStackStep (st : RA) (phi : PhiRec) : RA :=
  if phiResultAllocated st phi.pid then st
  else
    let st1 := allocateSpillSlot st phi.pid
    match nodeSpillOf st1 phi.pid with
    | some sl =>
      updNode st1 phi.pid (fun v => { v with result := some (Operand.slot sl) })
    | none => st1

/-- First pass over the phi list. -/
def phiPassOne (s : RA) (phis : List PhiRec) : RA :=
  phis.foldl phiReuseStep s

/-- Second pass over the phi list. -/
def phiPassTwo (s : RA) (phis : List PhiRec) : RA :=
  phis.foldl phiFreeStep s

/-- Third pass over the phi list. -/
def phiPassThree (s : RA) (phis : List PhiRec) : RA :=
  phis.foldl phiStackStep s

/-- The three phi passes of AllocateRegisters, in order. -/
def allocatePhis (s : RA) (phis : List PhiRec) : RA :=
  phiPassThree (phiPassTwo (phiPassOne s phis) phis) phis

/-- Concrete state for the C8 witness: a single phi v11 whose only
input arrives in r0, which is occupied — pass 1 fails, pass 2 has no
free register (r0 is taken), pass 3 spills. -/
def c8s : RA :=
  { regCount := 1
    register_values := [some 4]
    free_registers := []
    nodes := [⟨4, 8, 20, [0], none, none⟩, ⟨11, 3, 9, [], none, none⟩]
    top_of_stack := 0
    free_slots := []
    moves := [] }

/-- The phi of the C8 witness. -/
def c8phi : PhiRec := ⟨11, [Operand.reg 0]⟩

/-- The state-transforming operations of the allocator, for stating
properties uniform in the operation (such as monotonicity of
top_of_stack). -/
inductive AllocStep where
  | spillOp (nid : Nat)
  | slotAllocOp (nid : Nat)
  | updUseOp (inp : InputRec)
  | freeOp (r : Nat)
  | forceOp (r nid : Nat)
  | allocRegOp (nid : Nat)
  | spillRegsOp
  | spillClearOp
  | tempsOp (t : Nat)
  | phisOp (l : List PhiRec)
  | nodeOp (n : NodeInfo)
deriving DecidableEq

/-- Apply one allocator operation (none when the operation runs into the
allocator's undefined/failure cases). -/
def applyStep : AllocStep → RA → Option RA
  | AllocStep.spillOp nid, s => some (spillNode s nid)
  | AllocStep.slotAllocOp nid, s => some (allocateSpillSlot s nid)
  | AllocStep.updUseOp inp, s => some (updateInputUse s inp)
  | AllocStep.freeOp r, s => some (free s r)
  | AllocStep.forceOp r nid, s => some (forceAllocate s r nid).1
  | AllocStep.allocRegOp nid, s => (allocateRegister s nid).map (fun p => p.1)
  | AllocStep.spillRegsOp, s => some (spillRegisters s)
  | AllocStep.spillClearOp, s => some (spillAndClearRegisters s)
  | AllocStep.tempsOp t, s => assignTemporaries s t
  | AllocStep.phisOp l, s => some (allocatePhis s l)
  | AllocStep.nodeOp n, s => allocateNode s n

/-- Concrete state for the C9 witness with a recycled slot pending. -/
def c9s : RA :=
  { regCount := 1
    register_values := [none]
    free_registers := [0]
    nodes := [⟨5, 4, 9, [], none, none⟩]
    top_of_stack := 3
    free_slots := [2]
    moves := [] }

/-- The C9 witness state with an empty free-slot list. -/
def c9s2 : RA := { c9s with free_slots := [] }

/-- The C9 witness state with an already-spilled node. -/
def c9sp : RA := { c9s with nodes := [⟨7, 4, 9, [], some 1, none⟩] }

/-- Claim C1 (code_bug evidence): with all registers full,
AllocateRegister for v3 does pick the furthest-next-use register r1
(holder v2, next use 9), but frees it through FreeRegister rather than
the Free eviction path: afterwards v2 has no spill slot, its register
set still claims r1, no gap move was emitted, and r1 holds v3.  The
claim (and the spec's eviction path) say v2 would have been moved or
spilled. -/
theorem c1_eviction_skips_spill :
    (allocateRegister c1ex 3).map
      (fun p => (nodeSpillOf p.1 2, nodeRegsOf p.1 2, p.1.register_values,
                 p.1.moves, p.2))
      = some (none, [1], [some 1, some 3], [], Operand.reg 1) := by
  rfl

/-- Claim C3 (code_bug evidence): the register-file invariant holds
before the allocation step, and is broken by it: after AllocateRegister
evicts v2 via FreeRegister, cell r1 points at v3 while v2's register
set still contains r1, so the "registers held = cells pointing at the
node" half of the invariant fails. -/
theorem c3_consistency_broken :
    consistentB c3ex = true ∧
    (allocateRegister c3ex 3).map (fun p => consistentB p.1) = some false := by
  exact ⟨by decide, by decide⟩

/-- Claim C5 (code_bug evidence): with registers occupied the scan does
select a valid register index (r1, the furthest next use), but with
zero occupied registers the scan leaves longest at -1 and the source
calls FreeRegister(-1) — an out-of-bounds write with no assertion in
its way (there is no DCHECK in FreeSomeRegister); the undefined result
is modelled as none. -/
theorem c5_no_assert_on_empty :
    freeSomeRegisterIdx c5occ = some 1 ∧
    freeSomeRegisterIdx c5empty = none ∧
    freeSomeRegister c5empty = none := by
  decide

/-- Claim C2 (counterexample): in the merge-cell branch the incoming
value is v5 whose current allocation is register r0, yet the operand
recorded at predecessor_id 0 is slot 2 — the merge cell NODE v9's
allocation (node->allocation() in the source), not the incoming value's
allocation as the claim states. -/
theorem c2_records_cell_node_not_incoming :
    mergeRegisterValues c2s c2ctx (some c2ts)
      = some [RegCell.merge 9 [Operand.slot 2, Operand.reg 0]] ∧
    incomingOf c2s c2ctx 0 = some 5 ∧
    allocationO c2s 5 = some (Operand.reg 0) ∧
    allocationO c2s 9 = some (Operand.slot 2) ∧
    Operand.slot 2 ≠ Operand.reg 0 := by
  refine ⟨rfl, rfl, rfl, rfl, by decide⟩

/-- Claim C2 (amended): when the target cell for register i is already a
merge cell for node m and the (live) incoming holder differs from m, the
operand recorded at predecessor_id is m's current allocation — which may
be a spill slot — and when the incoming value is spilled the merge
asserts (CHECK in EnsureInRegister, modelled as none) that it is
reachable elsewhere in the target's merge state. -/
theorem c2_merge_records_cell_allocation (s : RA) (ctx : ECtx)
    (ts : List RegCell) (i m inc : Nat) (ops : List Operand) (a : Operand)
    (hin : incomingOf s ctx i = some inc) (hne : inc ≠ m)
    (ha : allocationO s m = some a) :
    mergeOneReg s ctx ts i (RegCell.merge m ops) =
      (if (nodeSpillOf s inc).isSome ∧ ensureInRegisterB ts inc = false
       then none
       else some (RegCell.merge m (ops.set ctx.predId a))) := by
  have hneq : (some inc : Option Nat) ≠ some m := by
    intro h
    injection h with h2
    exact hne h2
  simp only [mergeOneReg, hin, ha, if_neg hneq]
  cases hsp : (nodeSpillOf s inc).isSome with
  | false =>
    simp [hsp]
  | true =>
    cases her : ensureInRegisterB ts inc with
    | false => simp [hsp, her]
    | true => simp [hsp, her]

/-- Witness for the amended C2 theorem at the concrete scenario. -/
theorem c2_merge_records_cell_allocation_w :
    mergeOneReg c2s c2ctx c2ts 0 (RegCell.merge 9 [Operand.reg 0, Operand.reg 0])
      = some (RegCell.merge 9 [Operand.slot 2, Operand.reg 0]) := by
  have h := c2_merge_records_cell_allocation c2s c2ctx c2ts 0 9 5
    [Operand.reg 0, Operand.reg 0] (Operand.slot 2) rfl (by decide) rfl
  simpa using h

/-- Claim C4 (counterexample): on branch results Return(10) and
Jump(5 → 10), the source's loop advances the SMALLER id (the Jump) and
meets at the Return, while the claim's advance-the-larger rule
immediately sees the Return advancing and terminates at the Jump — a
different node. -/
theorem c4_advance_rule_differs :
    meetCode 3 c4env c4ret c4jump = some c4ret ∧
    meetClaim 3 c4env c4ret c4jump = some c4jump ∧
    c4ret ≠ c4jump := by
  decide

/-- Claim C4 (amended): while the two nodes differ, the loop advances
the one with the SMALLER id along its own next-hole chain, and if that
advancing (smaller-id) node is a Return or loop back-edge the chain
terminates at the other node: one step of meetCode with a.hid < b.hid
either stops at b (when a is Return/JumpLoop) or recurses with a
replaced by its next hole. -/
theorem c4_meet_advances_smaller_id (fuel : Nat) (env : List HNode)
    (a b : HNode) (h : a.hid < b.hid) :
    meetCode (fuel + 1) env a b =
      (if a.isRet || a.isLoop then some b
       else
         match a.nextHole with
         | none => none
         | some nx =>
           match lookupH env nx with
           | none => none
           | some a2 => meetCode fuel env a2 b) := by
  have hne : a.hid ≠ b.hid := Nat.ne_of_lt h
  have hnlt : ¬ b.hid < a.hid := by
    intro hc
    exact (Nat.lt_asymm h) hc
  simp only [meetCode, if_neg hne, if_neg hnlt]

/-- Witness for the amended C4 theorem: with the smaller node a Return,
one step terminates at the larger node. -/
theorem c4_meet_advances_smaller_id_w :
    meetCode 1 c4env ⟨3, true, false, none⟩ c4ret = some c4ret := by
  have h := c4_meet_advances_smaller_id 0 c4env ⟨3, true, false, none⟩ c4ret
    (by decide)
  simpa using h

/-- Claim C10: when the producer of an input is already dead at the time
UpdateInputUse runs (for instance because an earlier input of the same
node consumed it), UpdateInputUse returns the state unchanged — no
next-use update, no register freeing, no second free-slot push. -/
theorem c10_dead_producer_noop (s : RA) (inp : InputRec) (v : VNode)
    (hv : getNode s inp.producer = some v) (hd : isDeadV v = true) :
    updateInputUse s inp = s := by
  unfold updateInputUse
  rw [hv]
  simp [hd]

/-- Witness for C10 at a concrete dead producer: the state, including
the free-slot list, is untouched. -/
theorem c10_dead_producer_noop_w :
    updateInputUse c10s ⟨4, 25, InputPolicy.registerOrSlot⟩ = c10s := by
  exact c10_dead_producer_noop c10s ⟨4, 25, InputPolicy.registerOrSlot⟩
    ⟨4, 21, 20, [0], some 1, none⟩ rfl (by decide)

theorem getD_set_self {α : Type _} :
    ∀ (l : List α) (i : Nat) (v d : α), i < l.length →
      (l.set i v).getD i d = v := by
  intro l
  induction l with
  | nil => intro i v d h; exact absurd h (Nat.not_lt_zero i)
  | cons a tl ih =>
    intro i v d h
    cases i with
    | zero => rfl
    | succ j =>
      have hj : j < tl.length := Nat.lt_of_succ_lt_succ h
      simpa [List.set, List.getD] using ih j v d hj

theorem getD_set_ne {α : Type _} :
    ∀ (l : List α) (i j : Nat) (v d : α), i ≠ j →
      (l.set i v).getD j d = l.getD j d := by
  intro l
  induction l with
  | nil => intro i j v d _; cases i <;> rfl
  | cons a tl ih =>
    intro i j v d hne
    cases i with
    | zero =>
      cases j with
      | zero => exact absurd rfl hne
      | succ k => rfl
    | succ i' =>
      cases j with
      | zero => rfl
      | succ k =>
        have : i' ≠ k := fun h => hne (by rw [h])
        simpa [List.set, List.getD] using ih i' k v d this

theorem getD_none_of_len_le :
    ∀ (l : List (Option Nat)) (i : Nat), l.length ≤ i → l.getD i none = none := by
  intro l
  induction l with
  | nil => intro i _; cases i <;> rfl
  | cons a tl ih =>
    intro i h
    cases i with
    | zero => exact absurd h (by simp)
    | succ j =>
      have : tl.length ≤ j := Nat.le_of_succ_le_succ h
      simpa [List.getD] using ih j this

/-- A cell that holds a node is inside the register file array. -/
theorem cellGet_some_lt (s : RA) (i : Nat) (nid : Nat)
    (h : cellGet s i = some nid) : i < s.register_values.length := by
  by_contra hc
  have hle : s.register_values.length ≤ i := Nat.le_of_not_lt hc
  have := getD_none_of_len_le s.register_values i hle
  rw [cellGet, this] at h
  exact Option.noConfusion h

theorem find?_map_upd_ne (nid m : Nat) (f : VNode → VNode)
    (hf : ∀ v, (f v).nid = v.nid) (hne : m ≠ nid) :
    ∀ l : List VNode,
      (l.map (fun v => if v.nid = nid then f v else v)).find?
          (fun v => decide (v.nid = m))
        = l.find? (fun v => decide (v.nid = m)) := by
  intro l
  induction l with
  | nil => rfl
  | cons a tl ih =>
    rw [List.map_cons]
    by_cases ha : a.nid = nid
    · rw [if_pos ha]
      have hpa : ¬ ((f a).nid = m) := by
        rw [hf a, ha]; exact fun h => hne h.symm
      have hpa2 : ¬ (a.nid = m) := by
        rw [ha]; exact fun h => hne h.symm
      rw [List.find?_cons_of_neg _ (by simpa using hpa),
          List.find?_cons_of_neg _ (by simpa using hpa2)]
      exact ih
    · rw [if_neg ha]
      by_cases hm : a.nid = m
      · rw [List.find?_cons_of_pos _ (by simpa using hm),
            List.find?_cons_of_pos _ (by simpa using hm)]
      · rw [List.find?_cons_of_neg _ (by simpa using hm),
            List.find?_cons_of_neg _ (by simpa using hm)]
        exact ih

theorem find?_map_upd_self (nid : Nat) (f : VNode → VNode)
    (hf : ∀ v, (f v).nid = v.nid) :
    ∀ l : List VNode,
      (l.map (fun v => if v.nid = nid then f v else v)).find?
          (fun v => decide (v.nid = nid))
        = (l.find? (fun v => decide (v.nid = nid))).map f := by
  intro l
  induction l with
  | nil => rfl
  | cons a tl ih =>
    rw [List.map_cons]
    by_cases ha : a.nid = nid
    · rw [if_pos ha]
      have hp : (f a).nid = nid := by rw [hf a, ha]
      rw [List.find?_cons_of_pos _ (by simpa using hp),
          List.find?_cons_of_pos _ (by simpa using ha)]
      rfl
    · rw [if_neg ha]
      rw [List.find?_cons_of_neg _ (by simpa using ha),
          List.find?_cons_of_neg _ (by simpa using ha)]
      exact ih

/-- Reading a node after updNode: the updated node is mapped through f,
all others are untouched (for field updates that keep the id). -/
theorem getNode_updNode (s : RA) (nid m : Nat) (f : VNode → VNode)
    (hf : ∀ v, (f v).nid = v.nid) :
    getNode (updNode s nid f) m =
      (if m = nid then (getNode s m).map f else getNode s m) := by
  by_cases h : m = nid
  · subst h
    simp only [if_pos rfl]
    exact find?_map_upd_self m f hf s.nodes
  · simp only [if_neg h]
    exact find?_map_upd_ne nid m f hf h s.nodes

theorem cellGet_updNode (s : RA) (nid : Nat) (f : VNode → VNode) (i : Nat) :
    cellGet (updNode s nid f) i = cellGet s i := rfl

theorem getNode_cellSet (s : RA) (i : Nat) (v : Option Nat) (m : Nat) :
    getNode (cellSet s i v) m = getNode s m := rfl

/-- The two branch shapes of allocateSpillSlot, with the let reduced. -/
theorem allocateSpillSlot_nil (s : RA) (nid : Nat) (h : s.free_slots = []) :
    allocateSpillSlot s nid =
      updNode { s with top_of_stack := s.top_of_stack + 1 } nid
        (fun v => { v with spill := some (Int.ofNat s.top_of_stack) }) := by
  simp only [allocateSpillSlot, h]

theorem allocateSpillSlot_cons (s : RA) (nid : Nat) (sl : Int)
    (rest : List Int) (h : s.free_slots = sl :: rest) :
    allocateSpillSlot s nid =
      updNode { s with free_slots := rest } nid
        (fun v => { v with spill := some sl }) := by
  simp only [allocateSpillSlot, h]

theorem spillNode_register_values (s : RA) (nid : Nat) :
    (spillNode s nid).register_values = s.register_values := by
  unfold spillNode
  split
  · rfl
  · split
    · rfl
    · cases hfs : s.free_slots with
      | nil => rw [allocateSpillSlot_nil s nid hfs]; rfl
      | cons sl rest => rw [allocateSpillSlot_cons s nid sl rest hfs]; rfl

theorem spillNode_free_registers (s : RA) (nid : Nat) :
    (spillNode s nid).free_registers = s.free_registers := by
  unfold spillNode
  split
  · rfl
  · split
    · rfl
    · cases hfs : s.free_slots with
      | nil => rw [allocateSpillSlot_nil s nid hfs]; rfl
      | cons sl rest => rw [allocateSpillSlot_cons s nid sl rest hfs]; rfl

theorem spillNode_regCount (s : RA) (nid : Nat) :
    (spillNode s nid).regCount = s.regCount := by
  unfold spillNode
  split
  · rfl
  · split
    · rfl
    · cases hfs : s.free_slots with
      | nil => rw [allocateSpillSlot_nil s nid hfs]; rfl
      | cons sl rest => rw [allocateSpillSlot_cons s nid sl rest hfs]; rfl

theorem cellGet_spillNode (s : RA) (nid : Nat) (i : Nat) :
    cellGet (spillNode s nid) i = cellGet s i := by
  unfold cellGet
  rw [spillNode_register_values]

theorem getNode_allocateSpillSlot_ne (s : RA) (nid m : Nat) (hne : m ≠ nid) :
    getNode (allocateSpillSlot s nid) m = getNode s m := by
  cases hfs : s.free_slots with
  | nil =>
    rw [allocateSpillSlot_nil s nid hfs, getNode_updNode]
    · rw [if_neg hne]; rfl
    · intro w; rfl
  | cons sl rest =>
    rw [allocateSpillSlot_cons s nid sl rest hfs, getNode_updNode]
    · rw [if_neg hne]; rfl
    · intro w; rfl

theorem getNode_spillNode_ne (s : RA) (nid m : Nat) (hne : m ≠ nid) :
    getNode (spillNode s nid) m = getNode s m := by
  unfold spillNode
  split
  · rfl
  · split
    · rfl
    · exact getNode_allocateSpillSlot_ne s nid m hne

/-- allocateSpillSlot records a spill slot on the (existing) node. -/
theorem allocateSpillSlot_spilled (s : RA) (nid : Nat) (v : VNode)
    (hv : getNode s nid = some v) :
    (nodeSpillOf (allocateSpillSlot s nid) nid).isSome = true := by
  cases hfs : s.free_slots with
  | nil =>
    rw [allocateSpillSlot_nil s nid hfs]
    unfold nodeSpillOf
    rw [getNode_updNode]
    · rw [if_pos rfl]
      have hv2 : getNode { s with top_of_stack := s.top_of_stack + 1 } nid
          = some v := hv
      rw [hv2]
      simp
    · intro w; rfl
  | cons sl rest =>
    rw [allocateSpillSlot_cons s nid sl rest hfs]
    unfold nodeSpillOf
    rw [getNode_updNode]
    · rw [if_pos rfl]
      have hv2 : getNode { s with free_slots := rest } nid = some v := hv
      rw [hv2]
      simp
    · intro w; rfl

/-- Spilling a node makes it spilled, provided it exists. -/
theorem spillNode_spilled_self (s : RA) (nid : Nat) (v : VNode)
    (hv : getNode s nid = some v) :
    (nodeSpillOf (spillNode s nid) nid).isSome = true := by
  have heq : spillNode s nid =
      (if v.spill.isSome then s else allocateSpillSlot s nid) := by
    simp only [spillNode, hv]
  cases hb : v.spill.isSome with
  | true =>
    rw [heq, hb, if_pos rfl]
    unfold nodeSpillOf
    rw [hv]
    simpa using hb
  | false =>
    rw [heq, hb, if_neg (by simp)]
    exact allocateSpillSlot_spilled s nid v hv

/-- Spilledness is never undone by Spill. -/
theorem spillNode_spilled_mono (s : RA) (nid m : Nat)
    (h : (nodeSpillOf s m).isSome = true) :
    (nodeSpillOf (spillNode s nid) m).isSome = true := by
  by_cases hm : m = nid
  · subst hm
    cases hv : getNode s m with
    | none =>
      unfold nodeSpillOf at h
      rw [hv] at h
      exact absurd h (by simp)
    | some v => exact spillNode_spilled_self s m v hv
  · unfold nodeSpillOf
    rw [getNode_spillNode_ne s nid m hm]
    exact h

theorem getNode_isSome_allocateSpillSlot (s : RA) (nid m : Nat)
    (h : (getNode s m).isSome = true) :
    (getNode (allocateSpillSlot s nid) m).isSome = true := by
  by_cases hm : m = nid
  · subst hm
    cases hfs : s.free_slots with
    | nil =>
      rw [allocateSpillSlot_nil s m hfs, getNode_updNode]
      · rw [if_pos rfl]
        have hv2 : getNode { s with top_of_stack := s.top_of_stack + 1 } m
            = getNode s m := rfl
        rw [hv2]
        simpa using h
      · intro w; rfl
    | cons sl rest =>
      rw [allocateSpillSlot_cons s m sl rest hfs, getNode_updNode]
      · rw [if_pos rfl]
        have hv2 : getNode { s with free_slots := rest } m = getNode s m := rfl
        rw [hv2]
        simpa using h
      · intro w; rfl
  · rw [getNode_allocateSpillSlot_ne s nid m hm]
    exact h

theorem getNode_isSome_spillNode (s : RA) (nid m : Nat)
    (h : (getNode s m).isSome = true) :
    (getNode (spillNode s nid) m).isSome = true := by
  unfold spillNode
  split
  · exact h
  · split
    · exact h
    · exact getNode_isSome_allocateSpillSlot s nid m h

theorem cellGet_spillStep (st : RA) (a j : Nat) :
    cellGet (spillStep st a) j = cellGet st j := by
  unfold spillStep
  split
  · rfl
  · exact cellGet_spillNode st _ j

theorem spillStep_register_values (st : RA) (a : Nat) :
    (spillStep st a).register_values = st.register_values := by
  unfold spillStep
  split
  · rfl
  · exact spillNode_register_values st _

theorem spillStep_free_registers (st : RA) (a : Nat) :
    (spillStep st a).free_registers = st.free_registers := by
  unfold spillStep
  split
  · rfl
  · exact spillNode_free_registers st _

theorem spillStep_getNode_isSome (st : RA) (a m : Nat)
    (h : (getNode st m).isSome = true) :
    (getNode (spillStep st a) m).isSome = true := by
  unfold spillStep
  split
  · exact h
  · exact getNode_isSome_spillNode st _ m h

theorem spillStep_spilled_mono (st : RA) (a m : Nat)
    (h : (nodeSpillOf st m).isSome = true) :
    (nodeSpillOf (spillStep st a) m).isSome = true := by
  unfold spillStep
  split
  · exact h
  · exact spillNode_spilled_mono st _ m h

theorem spillStep_spills_holder (s : RA) (a nid : Nat)
    (hcell : cellGet s a = some nid) (hp : (getNode s nid).isSome = true) :
    (nodeSpillOf (spillStep s a) nid).isSome = true := by
  simp only [spillStep, hcell]
  cases hv : getNode s nid with
  | none => rw [hv] at hp; exact absurd hp (by simp)
  | some v => exact spillNode_spilled_self s nid v hv

theorem foldl_spillStep_register_values (l : List Nat) :
    ∀ s : RA, (l.foldl spillStep s).register_values = s.register_values := by
  induction l with
  | nil => intro s; rfl
  | cons a tl ih =>
    intro s
    rw [List.foldl_cons, ih (spillStep s a), spillStep_register_values]

theorem foldl_spillStep_free_registers (l : List Nat) :
    ∀ s : RA, (l.foldl spillStep s).free_registers = s.free_registers := by
  induction l with
  | nil => intro s; rfl
  | cons a tl ih =>
    intro s
    rw [List.foldl_cons, ih (spillStep s a), spillStep_free_registers]

theorem foldl_spillStep_spilled_mono (l : List Nat) :
    ∀ (s : RA) (m : Nat), (nodeSpillOf s m).isSome = true →
      (nodeSpillOf (l.foldl spillStep s) m).isSome = true := by
  induction l with
  | nil => intro s m h; exact h
  | cons a tl ih =>
    intro s m h
    rw [List.foldl_cons]
    exact ih (spillStep s a) m (spillStep_spilled_mono s a m h)

theorem foldl_spillStep_spills (l : List Nat) :
    ∀ s : RA,
      (∀ j nid, cellGet s j = some nid → (getNode s nid).isSome = true) →
      ∀ i ∈ l, ∀ nid, cellGet s i = some nid →
        (nodeSpillOf (l.foldl spillStep s) nid).isSome = true := by
  induction l with
  | nil => intro s _ i hi; exact absurd hi (List.not_mem_nil i)
  | cons a tl ih =>
    intro s hpres i hi nid hcell
    rw [List.foldl_cons]
    have hpres1 : ∀ j m, cellGet (spillStep s a) j = some m →
        (getNode (spillStep s a) m).isSome = true := by
      intro j m hc
      rw [cellGet_spillStep] at hc
      exact spillStep_getNode_isSome s a m (hpres j m hc)
    rcases List.mem_cons.mp hi with h | h
    · subst h
      have hsp : (nodeSpillOf (spillStep s i) nid).isSome = true :=
        spillStep_spills_holder s i nid hcell (hpres i nid hcell)
      exact foldl_spillStep_spilled_mono tl (spillStep s i) nid hsp
    · have hc1 : cellGet (spillStep s a) i = some nid := by
        rw [cellGet_spillStep]; exact hcell
      exact ih (spillStep s a) hpres1 i h nid hc1

theorem holdersPresent_spec (s : RA)
    (hlen : s.register_values.length = s.regCount)
    (h : holdersPresentB s = true) :
    ∀ i nid, cellGet s i = some nid → (getNode s nid).isSome = true := by
  intro i nid hc
  have hlt : i < s.regCount := hlen ▸ cellGet_some_lt s i nid hc
  have hall := List.all_eq_true.mp h i (List.mem_range.mpr hlt)
  simpa only [hc] using hall

/-- Claim C7: the deopt spill step (SpillRegisters, run by AllocateNode
when the node can deoptimize) spills every live register holder but
keeps the registers occupied: the register file and the free set are
unchanged, and every register holder is spilled afterwards. -/
theorem c7_deopt_spill_keeps_registers (s : RA)
    (hlen : s.register_values.length = s.regCount)
    (hpres : holdersPresentB s = true) :
    (spillRegisters s).register_values = s.register_values ∧
    (spillRegisters s).free_registers = s.free_registers ∧
    ∀ i nid, cellGet s i = some nid →
      (nodeSpillOf (spillRegisters s) nid).isSome = true := by
  refine ⟨foldl_spillStep_register_values _ s,
          foldl_spillStep_free_registers _ s, ?_⟩
  intro i nid hc
  have hlt : i < s.regCount := hlen ▸ cellGet_some_lt s i nid hc
  exact foldl_spillStep_spills (List.range s.regCount) s
    (holdersPresent_spec s hlen hpres) i (List.mem_range.mpr hlt) nid hc

/-- Witness for C7: after SpillRegisters the register file and free set
of the concrete state are unchanged and the holder v1 is spilled. -/
theorem c7_deopt_spill_keeps_registers_w :
    (spillRegisters c7s).register_values = c7s.register_values ∧
    (spillRegisters c7s).free_registers = c7s.free_registers ∧
    (nodeSpillOf (spillRegisters c7s) 1).isSome = true := by
  have h := c7_deopt_spill_keeps_registers c7s rfl (by decide)
  exact ⟨h.1, h.2.1, h.2.2 0 1 rfl⟩

theorem cellGet_freeRegister_self (st : RA) (j : Nat) :
    cellGet (freeRegister st j) j = none := by
  show (st.register_values.set j none).getD j none = none
  by_cases h : j < st.register_values.length
  · exact getD_set_self _ j none none h
  · have hle : (st.register_values.set j none).length ≤ j := by
      rw [List.length_set]; exact Nat.le_of_not_lt h
    exact getD_none_of_len_le _ j hle

theorem cellGet_freeRegister_ne (st : RA) (j i : Nat) (h : j ≠ i) :
    cellGet (freeRegister st j) i = cellGet st i := by
  show (st.register_values.set j none).getD i none
      = st.register_values.getD i none
  exact getD_set_ne _ j i none none h

theorem getNode_freeRegister (st : RA) (j m : Nat) :
    getNode (freeRegister st j) m = getNode st m := rfl

theorem free_registers_freeRegister (st : RA) (j : Nat) :
    (freeRegister st j).free_registers = insertReg j st.free_registers := rfl

theorem length_freeRegister (st : RA) (j : Nat) :
    (freeRegister st j).register_values.length
      = st.register_values.length := by
  show (st.register_values.set j none).length = st.register_values.length
  exact List.length_set st.register_values j none

theorem mem_insertReg (x j : Nat) (l : List Nat) :
    x ∈ insertReg j l ↔ x = j ∨ x ∈ l := by
  unfold insertReg
  by_cases h : j ∈ l
  · rw [if_pos h]
    constructor
    · exact fun hx => Or.inr hx
    · rintro (rfl | hx)
      · exact h
      · exact hx
  · rw [if_neg h]
    exact List.mem_cons

theorem cellGet_foldl_freeRegister (l : List Nat) :
    ∀ (st : RA) (j : Nat),
      cellGet (l.foldl freeRegister st) j
        = (if j ∈ l then none else cellGet st j) := by
  induction l with
  | nil => intro st j; simp
  | cons a tl ih =>
    intro st j
    rw [List.foldl_cons, ih (freeRegister st a) j]
    by_cases hjt : j ∈ tl
    · rw [if_pos hjt, if_pos (List.mem_cons.mpr (Or.inr hjt))]
    · rw [if_neg hjt]
      by_cases hja : j = a
      · subst hja
        rw [if_pos (List.mem_cons.mpr (Or.inl rfl))]
        exact cellGet_freeRegister_self st j
      · have : j ∉ a :: tl := by
          intro hc
          rcases List.mem_cons.mp hc with h | h
          · exact hja h
          · exact hjt h
        rw [if_neg this]
        exact cellGet_freeRegister_ne st a j (fun h => hja h.symm)

theorem mem_free_foldl_freeRegister (l : List Nat) :
    ∀ (st : RA) (x : Nat),
      x ∈ (l.foldl freeRegister st).free_registers
        ↔ x ∈ l ∨ x ∈ st.free_registers := by
  induction l with
  | nil => intro st x; simp
  | cons a tl ih =>
    intro st x
    rw [List.foldl_cons, ih (freeRegister st a) x,
        free_registers_freeRegister, List.mem_cons]
    rw [mem_insertReg]
    tauto

theorem getNode_foldl_freeRegister (l : List Nat) :
    ∀ (st : RA) (m : Nat), getNode (l.foldl freeRegister st) m = getNode st m := by
  induction l with
  | nil => intro st m; rfl
  | cons a tl ih =>
    intro st m
    rw [List.foldl_cons, ih (freeRegister st a) m, getNode_freeRegister]

theorem length_foldl_freeRegister (l : List Nat) :
    ∀ st : RA, (l.foldl freeRegister st).register_values.length
      = st.register_values.length := by
  induction l with
  | nil => intro st; rfl
  | cons a tl ih =>
    intro st
    rw [List.foldl_cons, ih (freeRegister st a), length_freeRegister]

theorem cellGet_freeRegistersOf (st : RA) (nid j : Nat) :
    cellGet (freeRegistersOf st nid) j
      = (if j ∈ nodeRegsOf st nid then none else cellGet st j) := by
  unfold freeRegistersOf
  rw [cellGet_updNode, cellGet_foldl_freeRegister]

theorem mem_free_freeRegistersOf (st : RA) (nid x : Nat) :
    x ∈ (freeRegistersOf st nid).free_registers
      ↔ x ∈ nodeRegsOf st nid ∨ x ∈ st.free_registers := by
  unfold freeRegistersOf
  exact mem_free_foldl_freeRegister (nodeRegsOf st nid) st x

theorem getNode_freeRegistersOf_ne (st : RA) (nid m : Nat) (h : m ≠ nid) :
    getNode (freeRegistersOf st nid) m = getNode st m := by
  unfold freeRegistersOf
  rw [getNode_updNode]
  · rw [if_neg h]
    exact getNode_foldl_freeRegister (nodeRegsOf st nid) st m
  · intro w; rfl

theorem getNode_freeRegistersOf_self (st : RA) (nid : Nat) :
    getNode (freeRegistersOf st nid) nid
      = (getNode st nid).map (fun v => { v with registers := [] }) := by
  unfold freeRegistersOf
  rw [getNode_updNode]
  · rw [if_pos rfl, getNode_foldl_freeRegister]
  · intro w; rfl

theorem nodeSpillOf_freeRegistersOf (st : RA) (nid m : Nat) :
    nodeSpillOf (freeRegistersOf st nid) m = nodeSpillOf st m := by
  by_cases h : m = nid
  · subst h
    unfold nodeSpillOf
    rw [getNode_freeRegistersOf_self]
    cases getNode st m <;> rfl
  · unfold nodeSpillOf
    rw [getNode_freeRegistersOf_ne st nid m h]

theorem nodeRegsOf_freeRegistersOf_self (st : RA) (nid : Nat) :
    nodeRegsOf (freeRegistersOf st nid) nid = [] := by
  unfold nodeRegsOf
  rw [getNode_freeRegistersOf_self]
  cases getNode st nid <;> rfl

theorem nodeRegsOf_freeRegistersOf_ne (st : RA) (nid m : Nat) (h : m ≠ nid) :
    nodeRegsOf (freeRegistersOf st nid) m = nodeRegsOf st m := by
  unfold nodeRegsOf
  rw [getNode_freeRegistersOf_ne st nid m h]

theorem length_freeRegistersOf (st : RA) (nid : Nat) :
    (freeRegistersOf st nid).register_values.length
      = st.register_values.length := by
  unfold freeRegistersOf
  have h : (updNode ((nodeRegsOf st nid).foldl freeRegister st) nid
      (fun v => { v with registers := [] })).register_values
      = ((nodeRegsOf st nid).foldl freeRegister st).register_values := rfl
  rw [h]
  exact length_foldl_freeRegister (nodeRegsOf st nid) st

theorem getNode_isSome_freeRegistersOf (st : RA) (nid m : Nat) :
    (getNode (freeRegistersOf st nid) m).isSome = (getNode st m).isSome := by
  by_cases h : m = nid
  · subst h
    rw [getNode_freeRegistersOf_self]
    cases getNode st m <;> rfl
  · rw [getNode_freeRegistersOf_ne st nid m h]

theorem nodeRegsOf_spillNode (s : RA) (nid m : Nat) :
    nodeRegsOf (spillNode s nid) m = nodeRegsOf s m := by
  by_cases h : m = nid
  · subst h
    unfold spillNode
    split
    · rfl
    · split
      · rfl
      · cases hfs : s.free_slots with
        | nil =>
          rw [allocateSpillSlot_nil s m hfs]
          unfold nodeRegsOf
          rw [getNode_updNode]
          · rw [if_pos rfl]
            have : getNode { s with top_of_stack := s.top_of_stack + 1 } m
                = getNode s m := rfl
            rw [this]
            cases getNode s m <;> rfl
          · intro w; rfl
        | cons sl rest =>
          rw [allocateSpillSlot_cons s m sl rest hfs]
          unfold nodeRegsOf
          rw [getNode_updNode]
          · rw [if_pos rfl]
            have : getNode { s with free_slots := rest } m = getNode s m := rfl
            rw [this]
            cases getNode s m <;> rfl
          · intro w; rfl
  · unfold nodeRegsOf
    rw [getNode_spillNode_ne s nid m h]

theorem getNode_isSome_spillNode_eq (s : RA) (nid m : Nat) :
    (getNode (spillNode s nid) m).isSome = (getNode s m).isSome := by
  by_cases h : m = nid
  · subst h
    unfold spillNode
    split
    · rfl
    · split
      · rfl
      · cases hfs : s.free_slots with
        | nil =>
          rw [allocateSpillSlot_nil s m hfs, getNode_updNode]
          · rw [if_pos rfl]
            have : getNode { s with top_of_stack := s.top_of_stack + 1 } m
                = getNode s m := rfl
            rw [this]
            cases getNode s m <;> rfl
          · intro w; rfl
        | cons sl rest =>
          rw [allocateSpillSlot_cons s m sl rest hfs, getNode_updNode]
          · rw [if_pos rfl]
            have : getNode { s with free_slots := rest } m = getNode s m := rfl
            rw [this]
            cases getNode s m <;> rfl
          · intro w; rfl
  · rw [getNode_spillNode_ne s nid m h]

theorem spillClearStep_main (N : Nat) (st : RA) (a : Nat)
    (hInv : SAC_Inv N st) :
    SAC_Inv N (spillClearStep st a) ∧
    (∀ j, cellGet st j = none → cellGet (spillClearStep st a) j = none) ∧
    cellGet (spillClearStep st a) a = none ∧
    (∀ x, x ∈ st.free_registers → x ∈ (spillClearStep st a).free_registers) ∧
    (∀ m, (nodeSpillOf st m).isSome = true →
      (nodeSpillOf (spillClearStep st a) m).isSome = true) ∧
    (∀ j nid, cellGet st j = some nid →
      (nodeSpillOf (spillClearStep st a) nid).isSome = true ∨
      cellGet (spillClearStep st a) j = some nid) := by
  obtain ⟨hlen, hfree, hcells⟩ := hInv
  cases hca : cellGet st a with
  | none =>
    have hstep : spillClearStep st a = st := by simp only [spillClearStep, hca]
    rw [hstep]
    exact ⟨⟨hlen, hfree, hcells⟩, fun j h => h, hca, fun x h => h,
      fun m h => h, fun j nid h => Or.inr h⟩
  | some nid =>
    have hstep : spillClearStep st a = freeRegistersOf (spillNode st nid) nid := by
      simp only [spillClearStep, hca]
    obtain ⟨hpres, hiff⟩ := hcells a nid hca
    have h1cell : ∀ j, cellGet (spillNode st nid) j = cellGet st j :=
      fun j => cellGet_spillNode st nid j
    have h1free : (spillNode st nid).free_registers = st.free_registers :=
      spillNode_free_registers st nid
    have h1regs : ∀ m, nodeRegsOf (spillNode st nid) m = nodeRegsOf st m :=
      fun m => nodeRegsOf_spillNode st nid m
    have h2cell : ∀ j, cellGet (spillClearStep st a) j
        = (if j ∈ nodeRegsOf st nid then none else cellGet st j) := by
      intro j
      rw [hstep, cellGet_freeRegistersOf, h1regs, h1cell]
    have h2free : ∀ x, x ∈ (spillClearStep st a).free_registers
        ↔ x ∈ nodeRegsOf st nid ∨ x ∈ st.free_registers := by
      intro x
      rw [hstep, mem_free_freeRegistersOf, h1regs, h1free]
    have h2spill : ∀ m, nodeSpillOf (spillClearStep st a) m
        = nodeSpillOf (spillNode st nid) m := by
      intro m
      rw [hstep, nodeSpillOf_freeRegistersOf]
    have h2get : ∀ m, (getNode (spillClearStep st a) m).isSome
        = (getNode st m).isSome := by
      intro m
      rw [hstep, getNode_isSome_freeRegistersOf, getNode_isSome_spillNode_eq]
    have h2regs_ne : ∀ m, m ≠ nid →
        nodeRegsOf (spillClearStep st a) m = nodeRegsOf st m := by
      intro m hm
      rw [hstep, nodeRegsOf_freeRegistersOf_ne _ _ _ hm, h1regs]
    have hnidsp : (nodeSpillOf (spillClearStep st a) nid).isSome = true := by
      rw [h2spill]
      cases hv : getNode st nid with
      | none => rw [hv] at hpres; exact absurd hpres (by simp)
      | some v => exact spillNode_spilled_self st nid v hv
    refine ⟨⟨?_, ?_, ?_⟩, ?_, ?_, ?_, ?_, ?_⟩
    · rw [hstep, length_freeRegistersOf, spillNode_register_values]
      exact hlen
    · intro i hi hcell
      by_cases hmem : i ∈ nodeRegsOf st nid
      · exact (h2free i).mpr (Or.inl hmem)
      · rw [h2cell, if_neg hmem] at hcell
        exact (h2free i).mpr (Or.inr (hfree i hi hcell))
    · intro i m hcell
      have hcell2 := hcell
      rw [h2cell] at hcell2
      by_cases hmem : i ∈ nodeRegsOf st nid
      · rw [if_pos hmem] at hcell2; exact absurd hcell2 (by simp)
      · rw [if_neg hmem] at hcell2
        have hmne : m ≠ nid := by
          intro h
          subst h
          exact hmem ((hiff i).mp hcell2)
        obtain ⟨hp, hiffm⟩ := hcells i m hcell2
        refine ⟨by rw [h2get]; exact hp, ?_⟩
        intro j
        rw [h2regs_ne m hmne, h2cell]
        by_cases hjm : j ∈ nodeRegsOf st nid
        · rw [if_pos hjm]
          constructor
          · intro h; exact absurd h (by simp)
          · intro hj
            have h1 : cellGet st j = some m := (hiffm j).mpr hj
            have h2 : cellGet st j = some nid := (hiff j).mpr hjm
            rw [h1] at h2
            exact absurd (Option.some.injEq m nid ▸ h2) (by
              intro h; exact hmne (by injection h2))
        · rw [if_neg hjm]
          exact hiffm j
    · intro j hj
      rw [h2cell]
      by_cases hjm : j ∈ nodeRegsOf st nid
      · rw [if_pos hjm]
      · rw [if_neg hjm]; exact hj
    · rw [h2cell, if_pos ((hiff a).mp hca)]
    · intro x hx
      exact (h2free x).mpr (Or.inr hx)
    · intro m hm
      rw [h2spill]
      exact spillNode_spilled_mono st nid m hm
    · intro j p hp
      by_cases hpn : p = nid
      · subst hpn
        exact Or.inl hnidsp
      · have hjm : j ∉ nodeRegsOf st nid := by
          intro hc
          have := (hiff j).mpr hc
          rw [hp] at this
          exact hpn (by injection this)
        refine Or.inr ?_
        rw [h2cell, if_neg hjm]
        exact hp

theorem foldl_spillClearStep_main (N : Nat) (l : List Nat) :
    ∀ st : RA, SAC_Inv N st →
      SAC_Inv N (l.foldl spillClearStep st) ∧
      (∀ j, cellGet st j = none → cellGet (l.foldl spillClearStep st) j = none) ∧
      (∀ j ∈ l, cellGet (l.foldl spillClearStep st) j = none) ∧
      (∀ x, x ∈ st.free_registers →
        x ∈ (l.foldl spillClearStep st).free_registers) ∧
      (∀ m, (nodeSpillOf st m).isSome = true →
        (nodeSpillOf (l.foldl spillClearStep st) m).isSome = true) ∧
      (∀ j nid, cellGet st j = some nid →
        (nodeSpillOf (l.foldl spillClearStep st) nid).isSome = true ∨
        cellGet (l.foldl spillClearStep st) j = some nid) := by
  induction l with
  | nil =>
    intro st h
    exact ⟨h, fun j hj => hj,
      fun j hj => absurd hj (List.not_mem_nil j),
      fun x hx => hx, fun m hm => hm, fun j nid hj => Or.inr hj⟩
  | cons a tl ih =>
    intro st hInv
    obtain ⟨sInv, sNone, sA, sFree, sSpill, sHold⟩ :=
      spillClearStep_main N st a hInv
    obtain ⟨fInv, fNone, fMem, fFree, fSpill, fHold⟩ :=
      ih (spillClearStep st a) sInv
    rw [List.foldl_cons]
    refine ⟨fInv, ?_, ?_, ?_, ?_, ?_⟩
    · intro j hj
      exact fNone j (sNone j hj)
    · intro j hj
      rcases List.mem_cons.mp hj with h | h
      · subst h
        exact fNone j sA
      · exact fMem j h
    · intro x hx
      exact fFree x (sFree x hx)
    · intro m hm
      exact fSpill m (sSpill m hm)
    · intro j nid hj
      rcases sHold j nid hj with h | h
      · exact Or.inl (fSpill nid h)
      · exact fHold j nid h

/-- The executable invariant checks imply the SpillAndClearRegisters
invariant. -/
theorem consistent_implies_inv (s : RA)
    (hlen : s.register_values.length = s.regCount)
    (hc : consistentB s = true) (hp : holdersPresentB s = true) :
    SAC_Inv s.regCount s := by
  have hcc := hc
  unfold consistentB at hcc
  rw [Bool.and_eq_true] at hcc
  obtain ⟨hc1, hc2⟩ := hcc
  refine ⟨hlen, ?_, ?_⟩
  · intro i hi hcell
    have h := List.all_eq_true.mp hc1 i (List.mem_range.mpr hi)
    have h2 := of_decide_eq_true h
    exact h2.mp hcell
  · intro i nid hcell
    have hlt : i < s.regCount := hlen ▸ cellGet_some_lt s i nid hcell
    have hpr := holdersPresent_spec s hlen hp i nid hcell
    cases hv : getNode s nid with
    | none => rw [hv] at hpr; exact absurd hpr (by simp)
    | some v =>
      have hvm : v ∈ s.nodes := List.mem_of_find?_eq_some hv
      have hvid : v.nid = nid := by
        have := List.find?_some hv
        exact of_decide_eq_true this
      have hnode := List.all_eq_true.mp hc2 v hvm
      rw [Bool.and_eq_true] at hnode
      obtain ⟨hbd, hiffs⟩ := hnode
      have hregs : nodeRegsOf s nid = v.registers := by
        unfold nodeRegsOf
        rw [hv]
        rfl
      refine ⟨rfl, ?_⟩
      intro j
      rw [hregs]
      constructor
      · intro hj
        have hjlt : j < s.regCount := hlen ▸ cellGet_some_lt s j nid hj
        have h := List.all_eq_true.mp hiffs j (List.mem_range.mpr hjlt)
        have h2 := of_decide_eq_true h
        rw [hvid] at h2
        exact h2.mpr hj
      · intro hj
        have hjlt : j < s.regCount := by
          have h := List.all_eq_true.mp hbd j hj
          exact of_decide_eq_true h
        have h := List.all_eq_true.mp hiffs j (List.mem_range.mpr hjlt)
        have h2 := of_decide_eq_true h
        rw [hvid] at h2
        exact h2.mp hj

/-- Claim C6 (amended): for a call node, the spill-and-clear step run by
AllocateNode (SpillAndClearRegisters) spills every register holder and
frees all registers: immediately after it the register file is empty,
every register index below regCount is in the free set, and every value
that held a register at the step is spilled.  (The call's own result is
allocated only afterwards and may then occupy a register, so the file
need not be empty after the full allocation step.) -/
theorem c6_call_spill_clears_file (s : RA)
    (hlen : s.register_values.length = s.regCount)
    (hc : consistentB s = true) (hp : holdersPresentB s = true) :
    (∀ i, cellGet (spillAndClearRegisters s) i = none) ∧
    (∀ i, i < s.regCount →
      i ∈ (spillAndClearRegisters s).free_registers) ∧
    (∀ i nid, cellGet s i = some nid →
      (nodeSpillOf (spillAndClearRegisters s) nid).isSome = true) := by
  have hInv := consistent_implies_inv s hlen hc hp
  obtain ⟨fInv, fNone, fMem, fFree, fSpill, fHold⟩ :=
    foldl_spillClearStep_main s.regCount (List.range s.regCount) s hInv
  have hall : ∀ i, cellGet (spillAndClearRegisters s) i = none := by
    intro i
    by_cases hi : i < s.regCount
    · exact fMem i (List.mem_range.mpr hi)
    · have hlen2 : (spillAndClearRegisters s).register_values.length
          = s.regCount := fInv.1
      unfold cellGet
      apply getD_none_of_len_le
      rw [hlen2]
      exact Nat.le_of_not_lt hi
  refine ⟨hall, ?_, ?_⟩
  · intro i hi
    exact fInv.2.1 i hi (hall i)
  · intro i nid hcell
    rcases fHold i nid hcell with h | h
    · exact h
    · have h2 : cellGet (spillAndClearRegisters s) i = some nid := h
      rw [hall i] at h2
      exact absurd h2 (by simp)

/-- Witness for the amended C6 theorem at a concrete state. -/
theorem c6_call_spill_clears_file_w :
    cellGet (spillAndClearRegisters c6ws) 0 = none ∧
    (0 ∈ (spillAndClearRegisters c6ws).free_registers) ∧
    (nodeSpillOf (spillAndClearRegisters c6ws) 1).isSome = true := by
  have h := c6_call_spill_clears_file c6ws rfl (by decide) (by decide)
  exact ⟨h.1 0, h.2.1 0 (by decide), h.2.2 0 1 rfl⟩

/-- Claim C6 (counterexample): after the full allocation step of the
call node v7, the register file is NOT empty — r0 holds the call's own
result v7 — even though the pre-call holder v4 was spilled (to slot 0)
and its registers freed.  The claim's "the register file is empty
immediately after the call node" fails for call nodes that produce a
register result. -/
theorem c6_call_file_not_empty :
    (allocateNode c6s c6n).map
      (fun st => (st.register_values, nodeSpillOf st 4, nodeRegsOf st 4))
      = some ([some 7], some 0, []) := by
  rfl

theorem getNode_congr (s1 s2 : RA) (h : s1.nodes = s2.nodes) (m : Nat) :
    getNode s1 m = getNode s2 m := by
  unfold getNode
  rw [h]

theorem phiAlloc_congr (s1 s2 : RA) (h : s1.nodes = s2.nodes) (m : Nat) :
    phiResultAllocated s1 m = phiResultAllocated s2 m := by
  unfold phiResultAllocated
  rw [getNode_congr s1 s2 h m]

theorem getNode_isSome_updNode (s : RA) (nid m : Nat) (f : VNode → VNode)
    (hf : ∀ v, (f v).nid = v.nid)
    (h : (getNode s m).isSome = true) :
    (getNode (updNode s nid f) m).isSome = true := by
  rw [getNode_updNode s nid m f hf]
  by_cases hm : m = nid
  · rw [if_pos hm]
    cases hg : getNode s m with
    | none => rw [hg] at h; exact absurd h (by simp)
    | some v => simp
  · rw [if_neg hm]
    exact h

theorem phiAlloc_updNode (s : RA) (nid m : Nat) (f : VNode → VNode)
    (hf : ∀ v, (f v).nid = v.nid)
    (hr : ∀ v, v.result.isSome = true → (f v).result.isSome = true)
    (h : phiResultAllocated s m = true) :
    phiResultAllocated (updNode s nid f) m = true := by
  unfold phiResultAllocated at h ⊢
  rw [getNode_updNode s nid m f hf]
  by_cases hm : m = nid
  · rw [if_pos hm]
    cases hg : getNode s m with
    | none => rw [hg] at h; exact absurd h (by simp)
    | some v =>
      rw [hg] at h
      have hv : v.result.isSome = true := by simpa using h
      simpa using hr v hv
  · rw [if_neg hm]
    exact h

theorem phiAlloc_allocateSpillSlot (s : RA) (nid m : Nat)
    (h : phiResultAllocated s m = true) :
    phiResultAllocated (allocateSpillSlot s nid) m = true := by
  cases hfs : s.free_slots with
  | nil =>
    rw [allocateSpillSlot_nil s nid hfs]
    exact phiAlloc_updNode _ nid m _ (fun v => rfl) (fun v hv => hv) h
  | cons sl rest =>
    rw [allocateSpillSlot_cons s nid sl rest hfs]
    exact phiAlloc_updNode _ nid m _ (fun v => rfl) (fun v hv => hv) h

theorem phiAlloc_spillNode (s : RA) (nid m : Nat)
    (h : phiResultAllocated s m = true) :
    phiResultAllocated (spillNode s nid) m = true := by
  unfold spillNode
  split
  · exact h
  · split
    · exact h
    · exact phiAlloc_allocateSpillSlot s nid m h

theorem phiAlloc_setRegister (s : RA) (i nid m : Nat)
    (h : phiResultAllocated s m = true) :
    phiResultAllocated (setRegister s i nid) m = true := by
  unfold setRegister
  exact phiAlloc_updNode _ nid m _ (fun v => rfl) (fun v hv => hv) h

theorem getNode_isSome_setRegister (s : RA) (i nid m : Nat)
    (h : (getNode s m).isSome = true) :
    (getNode (setRegister s i nid) m).isSome = true := by
  unfold setRegister
  exact getNode_isSome_updNode _ nid m _ (fun v => rfl) h

theorem takeAnyFree_some_nodes (s : RA) (t : Nat) (s' : RA)
    (h : takeAnyFree s = some (t, s')) : s'.nodes = s.nodes := by
  unfold takeAnyFree at h
  cases hm : regListMin s.free_registers with
  | none => rw [hm] at h; exact absurd h (by simp)
  | some m =>
    rw [hm] at h
    injection h with h1
    injection h1 with ha hb
    rw [← hb]

theorem phiAlloc_freeEvictTail (s2 : RA) (regIdx nid m : Nat)
    (h : phiResultAllocated s2 m = true) :
    phiResultAllocated (freeEvictTail s2 regIdx nid) m = true := by
  unfold freeEvictTail
  split
  · exact h
  · split
    · exact h
    · cases ht : takeAnyFree s2 with
      | none => exact phiAlloc_spillNode s2 nid m h
      | some p =>
        obtain ⟨t, s3⟩ := p
        dsimp only
        have hnodes := takeAnyFree_some_nodes s2 t s3 ht
        have h3 : phiResultAllocated s3 m = true := by
          rw [phiAlloc_congr s3 s2 hnodes m]
          exact h
        have h4 := phiAlloc_setRegister s3 t nid m h3
        exact h4

theorem phiAlloc_free (s : RA) (regIdx m : Nat)
    (h : phiResultAllocated s m = true) :
    phiResultAllocated (free s regIdx) m = true := by
  cases hc : cellGet s regIdx with
  | none =>
    have hfr : free s regIdx = s := by simp only [free, hc]
    rw [hfr]
    exact h
  | some nid =>
    have hfr : free s regIdx = freeEvictTail
        (updNode (cellSet s regIdx none) nid
          (fun v => { v with registers := removeReg regIdx v.registers }))
        regIdx nid := by
      simp only [free, hc]
    rw [hfr]
    apply phiAlloc_freeEvictTail
    have h2 : phiResultAllocated (cellSet s regIdx none) m = true := h
    exact phiAlloc_updNode _ nid m _ (fun v => rfl) (fun v hv => hv) h2

theorem getNode_isSome_freeEvictTail (s2 : RA) (regIdx nid m : Nat)
    (h : (getNode s2 m).isSome = true) :
    (getNode (freeEvictTail s2 regIdx nid) m).isSome = true := by
  unfold freeEvictTail
  split
  · exact h
  · split
    · exact h
    · cases ht : takeAnyFree s2 with
      | none => exact getNode_isSome_spillNode s2 nid m h
      | some p =>
        obtain ⟨t, s3⟩ := p
        dsimp only
        have hnodes := takeAnyFree_some_nodes s2 t s3 ht
        have h3 : (getNode s3 m).isSome = true := by
          rw [getNode_congr s3 s2 hnodes m]
          exact h
        exact getNode_isSome_setRegister s3 t nid m h3

theorem getNode_isSome_free (s : RA) (regIdx m : Nat)
    (h : (getNode s m).isSome = true) :
    (getNode (free s regIdx) m).isSome = true := by
  cases hc : cellGet s regIdx with
  | none =>
    have hfr : free s regIdx = s := by simp only [free, hc]
    rw [hfr]
    exact h
  | some nid =>
    have hfr : free s regIdx = freeEvictTail
        (updNode (cellSet s regIdx none) nid
          (fun v => { v with registers := removeReg regIdx v.registers }))
        regIdx nid := by
      simp only [free, hc]
    rw [hfr]
    apply getNode_isSome_freeEvictTail
    have h2 : (getNode (cellSet s regIdx none) m).isSome = true := h
    exact getNode_isSome_updNode _ nid m _ (fun v => rfl) h2

theorem phiAlloc_forceAllocate (s : RA) (regIdx nid m : Nat)
    (h : phiResultAllocated s m = true) :
    phiResultAllocated (forceAllocate s regIdx nid).1 m = true := by
  unfold forceAllocate
  cases hc : cellGet s regIdx with
  | none =>
    dsimp only
    have h2 : phiResultAllocated
        { s with free_registers := removeReg regIdx s.free_registers } m
        = true := h
    exact phiAlloc_setRegister _ regIdx nid m h2
  | some p =>
    dsimp only
    by_cases hp : p = nid
    · rw [if_pos hp]
      exact h
    · rw [if_neg hp]
      exact phiAlloc_setRegister _ regIdx nid m (phiAlloc_free s regIdx m h)

theorem getNode_isSome_forceAllocate (s : RA) (regIdx nid m : Nat)
    (h : (getNode s m).isSome = true) :
    (getNode (forceAllocate s regIdx nid).1 m).isSome = true := by
  unfold forceAllocate
  cases hc : cellGet s regIdx with
  | none =>
    dsimp only
    have h2 : (getNode
        { s with free_registers := removeReg regIdx s.free_registers } m).isSome
        = true := h
    exact getNode_isSome_setRegister _ regIdx nid m h2
  | some p =>
    dsimp only
    by_cases hp : p = nid
    · rw [if_pos hp]
      exact h
    · rw [if_neg hp]
      exact getNode_isSome_setRegister _ regIdx nid m
        (getNode_isSome_free s regIdx m h)

theorem phiAlloc_tryAllocateToInput (s : RA) (pid m : Nat)
    (ops : List Operand) (h : phiResultAllocated s m = true) :
    phiResultAllocated (tryAllocateToInput s pid ops) m = true := by
  induction ops generalizing s with
  | nil => exact h
  | cons op rest ih =>
    cases op with
    | reg r =>
      unfold tryAllocateToInput
      dsimp only
      by_cases hc : cellGet s r = none
      · rw [if_pos hc]
        exact phiAlloc_updNode _ pid m _ (fun v => rfl) (fun v hv => by simp)
          (phiAlloc_forceAllocate s r pid m h)
      · rw [if_neg hc]
        exact ih s h
    | slot idx =>
      unfold tryAllocateToInput
      exact ih s h

theorem getNode_isSome_tryAllocateToInput (s : RA) (pid m : Nat)
    (ops : List Operand) (h : (getNode s m).isSome = true) :
    (getNode (tryAllocateToInput s pid ops) m).isSome = true := by
  induction ops generalizing s with
  | nil => exact h
  | cons op rest ih =>
    cases op with
    | reg r =>
      unfold tryAllocateToInput
      dsimp only
      by_cases hc : cellGet s r = none
      · rw [if_pos hc]
        exact getNode_isSome_updNode _ pid m _ (fun v => rfl)
          (getNode_isSome_forceAllocate s r pid m h)
      · rw [if_neg hc]
        exact ih s h
    | slot idx =>
      unfold tryAllocateToInput
      exact ih s h

theorem phiAlloc_tryAllocateRegister (s : RA) (nid m : Nat) (s1 : RA)
    (op : Operand) (hres : tryAllocateRegister s nid = some (s1, op))
    (h : phiResultAllocated s m = true) :
    phiResultAllocated s1 m = true := by
  cases hm : regListMin s.free_registers with
  | none =>
    rw [tryAllocateRegister, takeAnyFree, hm] at hres
    exact absurd hres (by simp)
  | some r =>
    rw [tryAllocateRegister, takeAnyFree, hm] at hres
    injection hres with h1
    injection h1 with ha hb
    rw [← ha]
    exact phiAlloc_setRegister _ r nid m h

theorem getNode_isSome_tryAllocateRegister (s : RA) (nid m : Nat) (s1 : RA)
    (op : Operand) (hres : tryAllocateRegister s nid = some (s1, op))
    (h : (getNode s m).isSome = true) :
    (getNode s1 m).isSome = true := by
  cases hm : regListMin s.free_registers with
  | none =>
    rw [tryAllocateRegister, takeAnyFree, hm] at hres
    exact absurd hres (by simp)
  | some r =>
    rw [tryAllocateRegister, takeAnyFree, hm] at hres
    injection hres with h1
    injection h1 with ha hb
    rw [← ha]
    exact getNode_isSome_setRegister _ r nid m h

theorem phiAlloc_phiReuseStep (st : RA) (phi : PhiRec) (m : Nat)
    (h : phiResultAllocated st m = true) :
    phiResultAllocated (phiReuseStep st phi) m = true := by
  unfold phiReuseStep
  exact phiAlloc_tryAllocateToInput _ phi.pid m phi.inputs
    (phiAlloc_updNode st phi.pid m _ (fun v => rfl) (fun v hv => hv) h)

theorem getNode_isSome_phiReuseStep (st : RA) (phi : PhiRec) (m : Nat)
    (h : (getNode st m).isSome = true) :
    (getNode (phiReuseStep st phi) m).isSome = true := by
  unfold phiReuseStep
  exact getNode_isSome_tryAllocateToInput _ phi.pid m phi.inputs
    (getNode_isSome_updNode st phi.pid m _ (fun v => rfl) h)

theorem phiAlloc_phiFreeStep (st : RA) (phi : PhiRec) (m : Nat)
    (h : phiResultAllocated st m = true) :
    phiResultAllocated (phiFreeStep st phi) m = true := by
  unfold phiFreeStep
  split
  · exact h
  · cases ht : tryAllocateRegister st phi.pid with
    | none => exact h
    | some p =>
      obtain ⟨st1, op⟩ := p
      dsimp only
      exact phiAlloc_updNode st1 phi.pid m _ (fun v => rfl) (fun v hv => by simp)
        (phiAlloc_tryAllocateRegister st phi.pid m st1 op ht h)

theorem getNode_isSome_phiFreeStep (st : RA) (phi : PhiRec) (m : Nat)
    (h : (getNode st m).isSome = true) :
    (getNode (phiFreeStep st phi) m).isSome = true := by
  unfold phiFreeStep
  split
  · exact h
  · cases ht : tryAllocateRegister st phi.pid with
    | none => exact h
    | some p =>
      obtain ⟨st1, op⟩ := p
      dsimp only
      exact getNode_isSome_updNode st1 phi.pid m _ (fun v => rfl)
        (getNode_isSome_tryAllocateRegister st phi.pid m st1 op ht h)

theorem phiAlloc_phiStackStep (st : RA) (phi : PhiRec) (m : Nat)
    (h : phiResultAllocated st m = true) :
    phiResultAllocated (phiStackStep st phi) m = true := by
  unfold phiStackStep
  split
  · exact h
  · dsimp only
    cases hs : nodeSpillOf (allocateSpillSlot st phi.pid) phi.pid with
    | none => exact phiAlloc_allocateSpillSlot st phi.pid m h
    | some sl =>
      exact phiAlloc_updNode _ phi.pid m _ (fun v => rfl) (fun v hv => by simp)
        (phiAlloc_allocateSpillSlot st phi.pid m h)

theorem getNode_isSome_phiStackStep (st : RA) (phi : PhiRec) (m : Nat)
    (h : (getNode st m).isSome = true) :
    (getNode (phiStackStep st phi) m).isSome = true := by
  unfold phiStackStep
  split
  · exact h
  · dsimp only
    cases hs : nodeSpillOf (allocateSpillSlot st phi.pid) phi.pid with
    | none => exact getNode_isSome_allocateSpillSlot st phi.pid m h
    | some sl =>
      exact getNode_isSome_updNode _ phi.pid m _ (fun v => rfl)
        (getNode_isSome_allocateSpillSlot st phi.pid m h)

theorem phiStackStep_allocates (st : RA) (phi : PhiRec)
    (hp : (getNode st phi.pid).isSome = true) :
    phiResultAllocated (phiStackStep st phi) phi.pid = true := by
  unfold phiStackStep
  split
  · rename_i hall
    exact hall
  · dsimp only
    cases hv : getNode st phi.pid with
    | none => rw [hv] at hp; exact absurd hp (by simp)
    | some v =>
      have hsp : (nodeSpillOf (allocateSpillSlot st phi.pid) phi.pid).isSome
          = true := allocateSpillSlot_spilled st phi.pid v hv
      cases hs : nodeSpillOf (allocateSpillSlot st phi.pid) phi.pid with
      | none => rw [hs] at hsp; exact absurd hsp (by simp)
      | some sl =>
        have hpres1 := getNode_isSome_allocateSpillSlot st phi.pid phi.pid hp
        cases hw : getNode (allocateSpillSlot st phi.pid) phi.pid with
        | none => rw [hw] at hpres1; exact absurd hpres1 (by simp)
        | some w =>
          unfold phiResultAllocated
          rw [getNode_updNode]
          · rw [if_pos rfl, hw]
            simp
          · intro x; rfl

theorem foldl_phiStackStep_phiAlloc (l : List PhiRec) :
    ∀ (st : RA) (m : Nat), phiResultAllocated st m = true →
      phiResultAllocated (l.foldl phiStackStep st) m = true := by
  induction l with
  | nil => intro st m h; exact h
  | cons a tl ih =>
    intro st m h
    rw [List.foldl_cons]
    exact ih (phiStackStep st a) m (phiAlloc_phiStackStep st a m h)

theorem foldl_phiStackStep_pres (l : List PhiRec) :
    ∀ (st : RA) (m : Nat), (getNode st m).isSome = true →
      (getNode (l.foldl phiStackStep st) m).isSome = true := by
  induction l with
  | nil => intro st m h; exact h
  | cons a tl ih =>
    intro st m h
    rw [List.foldl_cons]
    exact ih (phiStackStep st a) m (getNode_isSome_phiStackStep st a m h)

theorem phiPassThree_allocates (l : List PhiRec) :
    ∀ st : RA, (∀ p ∈ l, (getNode st p.pid).isSome = true) →
      ∀ p ∈ l, phiResultAllocated (phiPassThree st l) p.pid = true := by
  induction l with
  | nil => intro st _ p hp; exact absurd hp (List.not_mem_nil p)
  | cons a tl ih =>
    intro st hpres p hp
    unfold phiPassThree
    rw [List.foldl_cons]
    have hpres1 : ∀ q ∈ tl, (getNode (phiStackStep st a) q.pid).isSome = true :=
      fun q hq => getNode_isSome_phiStackStep st a q.pid
        (hpres q (List.mem_cons.mpr (Or.inr hq)))
    rcases List.mem_cons.mp hp with h | h
    · subst h
      exact foldl_phiStackStep_phiAlloc tl (phiStackStep st p) p.pid
        (phiStackStep_allocates st p
          (hpres p (List.mem_cons.mpr (Or.inl rfl))))
    · exact ih (phiStackStep st a) hpres1 p h

theorem phiPassOne_pres (l : List PhiRec) :
    ∀ (st : RA) (m : Nat), (getNode st m).isSome = true →
      (getNode (phiPassOne st l) m).isSome = true := by
  induction l with
  | nil => intro st m h; exact h
  | cons a tl ih =>
    intro st m h
    unfold phiPassOne
    rw [List.foldl_cons]
    exact ih (phiReuseStep st a) m (getNode_isSome_phiReuseStep st a m h)

theorem phiPassTwo_pres (l : List PhiRec) :
    ∀ (st : RA) (m : Nat), (getNode st m).isSome = true →
      (getNode (phiPassTwo st l) m).isSome = true := by
  induction l with
  | nil => intro st m h; exact h
  | cons a tl ih =>
    intro st m h
    unfold phiPassTwo
    rw [List.foldl_cons]
    exact ih (phiFreeStep st a) m (getNode_isSome_phiFreeStep st a m h)

/-- Claim C8: phi placement (the three passes of AllocateRegisters run
before any ordinary node of the block) leaves every phi with an
allocated result operand: the third pass gives every still-unassigned
phi a fresh spill slot, and neither later pass nor any allocation
primitive un-assigns a result. -/
theorem c8_phis_all_allocated (s : RA) (phis : List PhiRec)
    (hpres : ∀ p ∈ phis, (getNode s p.pid).isSome = true) :
    ∀ p ∈ phis, phiResultAllocated (allocatePhis s phis) p.pid = true := by
  unfold allocatePhis
  have h2 : ∀ p ∈ phis,
      (getNode (phiPassTwo (phiPassOne s phis) phis) p.pid).isSome = true := by
    intro p hp
    exact phiPassTwo_pres phis (phiPassOne s phis) p.pid
      (phiPassOne_pres phis s p.pid (hpres p hp))
  exact phiPassThree_allocates phis (phiPassTwo (phiPassOne s phis) phis) h2

/-- Witness for C8 at a concrete phi list. -/
theorem c8_phis_all_allocated_w :
    phiResultAllocated (allocatePhis c8s [c8phi]) 11 = true := by
  have h := c8_phis_all_allocated c8s [c8phi]
    (by
      intro p hp
      have hpc : p = c8phi := List.mem_singleton.mp hp
      subst hpc
      rfl)
  exact h c8phi (List.mem_singleton.mpr rfl)

theorem top_updNode (s : RA) (nid : Nat) (f : VNode → VNode) :
    (updNode s nid f).top_of_stack = s.top_of_stack := rfl

theorem top_cellSet (s : RA) (i : Nat) (v : Option Nat) :
    (cellSet s i v).top_of_stack = s.top_of_stack := rfl

theorem top_freeRegister (s : RA) (i : Nat) :
    (freeRegister s i).top_of_stack = s.top_of_stack := rfl

theorem top_setRegister (s : RA) (i nid : Nat) :
    (setRegister s i nid).top_of_stack = s.top_of_stack := rfl

theorem top_allocateSpillSlot_le (s : RA) (nid : Nat) :
    s.top_of_stack ≤ (allocateSpillSlot s nid).top_of_stack := by
  cases hfs : s.free_slots with
  | nil =>
    rw [allocateSpillSlot_nil s nid hfs]
    exact Nat.le_succ s.top_of_stack
  | cons sl rest =>
    rw [allocateSpillSlot_cons s nid sl rest hfs]
    exact Nat.le_refl _

theorem top_spillNode_le (s : RA) (nid : Nat) :
    s.top_of_stack ≤ (spillNode s nid).top_of_stack := by
  unfold spillNode
  split
  · exact Nat.le_refl _
  · split
    · exact Nat.le_refl _
    · exact top_allocateSpillSlot_le s nid

theorem top_foldl_freeRegister (l : List Nat) :
    ∀ st : RA, (l.foldl freeRegister st).top_of_stack = st.top_of_stack := by
  induction l with
  | nil => intro st; rfl
  | cons a tl ih =>
    intro st
    rw [List.foldl_cons, ih (freeRegister st a), top_freeRegister]

theorem top_freeRegistersOf (st : RA) (nid : Nat) :
    (freeRegistersOf st nid).top_of_stack = st.top_of_stack := by
  unfold freeRegistersOf
  rw [top_updNode, top_foldl_freeRegister]

theorem free_slots_foldl_freeRegister (l : List Nat) :
    ∀ st : RA, (l.foldl freeRegister st).free_slots = st.free_slots := by
  induction l with
  | nil => intro st; rfl
  | cons a tl ih =>
    intro st
    rw [List.foldl_cons, ih (freeRegister st a)]
    rfl

theorem free_slots_freeRegistersOf (st : RA) (nid : Nat) :
    (freeRegistersOf st nid).free_slots = st.free_slots := by
  unfold freeRegistersOf
  have h : (updNode ((nodeRegsOf st nid).foldl freeRegister st) nid
      (fun v => { v with registers := [] })).free_slots
      = ((nodeRegsOf st nid).foldl freeRegister st).free_slots := rfl
  rw [h, free_slots_foldl_freeRegister]

theorem takeAnyFree_some_eq (s : RA) (t : Nat) (s' : RA)
    (h : takeAnyFree s = some (t, s')) :
    s' = { s with free_registers := removeReg t s.free_registers } := by
  unfold takeAnyFree at h
  cases hm : regListMin s.free_registers with
  | none => rw [hm] at h; exact absurd h (by simp)
  | some m =>
    rw [hm] at h
    injection h with h1
    injection h1 with ha hb
    rw [← hb, ha]

theorem top_freeEvictTail_le (s2 : RA) (regIdx nid : Nat) :
    s2.top_of_stack ≤ (freeEvictTail s2 regIdx nid).top_of_stack := by
  unfold freeEvictTail
  split
  · exact Nat.le_refl _
  · split
    · exact Nat.le_refl _
    · cases ht : takeAnyFree s2 with
      | none => exact top_spillNode_le s2 nid
      | some p =>
        obtain ⟨t, s3⟩ := p
        dsimp only
        have he := takeAnyFree_some_eq s2 t s3 ht
        have h3 : s3.top_of_stack = s2.top_of_stack := by rw [he]
        have h4 : (setRegister s3 t nid).top_of_stack = s3.top_of_stack :=
          top_setRegister s3 t nid
        calc s2.top_of_stack = (setRegister s3 t nid).top_of_stack := by
              rw [h4, h3]
          _ ≤ _ := Nat.le_refl _

theorem top_free_le (s : RA) (r : Nat) :
    s.top_of_stack ≤ (free s r).top_of_stack := by
  cases hc : cellGet s r with
  | none =>
    have hfr : free s r = s := by simp only [free, hc]
    rw [hfr]
  | some nid =>
    have hfr : free s r = freeEvictTail
        (updNode (cellSet s r none) nid
          (fun v => { v with registers := removeReg r v.registers })) r nid := by
      simp only [free, hc]
    rw [hfr]
    exact top_freeEvictTail_le
      (updNode (cellSet s r none) nid
        (fun v => { v with registers := removeReg r v.registers })) r nid

theorem top_forceAllocate_le (s : RA) (r nid : Nat) :
    s.top_of_stack ≤ (forceAllocate s r nid).1.top_of_stack := by
  unfold forceAllocate
  cases hc : cellGet s r with
  | none => exact Nat.le_refl _
  | some p =>
    dsimp only
    by_cases hp : p = nid
    · rw [if_pos hp]
    · rw [if_neg hp]
      have h1 := top_free_le s r
      have h2 : (setRegister (free s r) r nid).top_of_stack
          = (free s r).top_of_stack := top_setRegister _ r nid
      rw [h2]
      exact h1

theorem top_freeSomeRegister (s s' : RA) (h : freeSomeRegister s = some s') :
    s'.top_of_stack = s.top_of_stack := by
  unfold freeSomeRegister at h
  cases hi : freeSomeRegisterIdx s with
  | none => rw [hi] at h; exact absurd h (by simp)
  | some i =>
    rw [hi] at h
    injection h with h1
    rw [← h1, top_freeRegister]

theorem top_tryAllocateRegister (s : RA) (nid : Nat) (s1 : RA) (op : Operand)
    (h : tryAllocateRegister s nid = some (s1, op)) :
    s1.top_of_stack = s.top_of_stack := by
  cases hm : regListMin s.free_registers with
  | none =>
    rw [tryAllocateRegister, takeAnyFree, hm] at h
    exact absurd h (by simp)
  | some r =>
    rw [tryAllocateRegister, takeAnyFree, hm] at h
    injection h with h1
    injection h1 with ha hb
    rw [← ha, top_setRegister]

theorem top_allocateRegister (s : RA) (nid : Nat) (s1 : RA) (op : Operand)
    (h : allocateRegister s nid = some (s1, op)) :
    s1.top_of_stack = s.top_of_stack := by
  unfold allocateRegister at h
  by_cases hf : s.free_registers = []
  · rw [if_pos hf] at h
    cases hs : freeSomeRegister s with
    | none => rw [hs] at h; exact absurd h (by simp)
    | some s2 =>
      rw [hs] at h
      have h2 := top_tryAllocateRegister s2 nid s1 op h
      rw [h2, top_freeSomeRegister s s2 hs]
  · rw [if_neg hf] at h
    exact top_tryAllocateRegister s nid s1 op h

theorem top_evictLoop : ∀ (k : Nat) (s s' : RA),
    evictLoop k s = some s' → s'.top_of_stack = s.top_of_stack := by
  intro k
  induction k with
  | zero =>
    intro s s' h
    injection h with h1
    rw [← h1]
  | succ k ih =>
    intro s s' h
    unfold evictLoop at h
    cases hs : freeSomeRegister s with
    | none => rw [hs] at h; exact absurd h (by simp)
    | some s2 =>
      rw [hs] at h
      rw [ih s2 s' h, top_freeSomeRegister s s2 hs]

theorem top_assignTemporaries (s : RA) (t : Nat) (s' : RA)
    (h : assignTemporaries s t = some s') :
    s'.top_of_stack = s.top_of_stack := by
  unfold assignTemporaries at h
  exact top_evictLoop _ s s' h

theorem top_updateInputUse (s : RA) (inp : InputRec) :
    (updateInputUse s inp).top_of_stack = s.top_of_stack := by
  unfold updateInputUse
  dsimp only
  split
  · rfl
  · split
    · rfl
    · split
      · rfl
      · split
        · split
          · split
            · simp [top_freeRegistersOf, top_updNode]
            · simp [top_freeRegistersOf, top_updNode]
          · simp [top_freeRegistersOf, top_updNode]
        · rfl

theorem top_spillStep_le (st : RA) (i : Nat) :
    st.top_of_stack ≤ (spillStep st i).top_of_stack := by
  unfold spillStep
  split
  · exact Nat.le_refl _
  · exact top_spillNode_le st _

theorem top_foldl_spillStep_le (l : List Nat) :
    ∀ st : RA, st.top_of_stack ≤ (l.foldl spillStep st).top_of_stack := by
  induction l with
  | nil => intro st; exact Nat.le_refl _
  | cons a tl ih =>
    intro st
    rw [List.foldl_cons]
    exact Nat.le_trans (top_spillStep_le st a) (ih (spillStep st a))

theorem top_spillRegisters_le (s : RA) :
    s.top_of_stack ≤ (spillRegisters s).top_of_stack :=
  top_foldl_spillStep_le (List.range s.regCount) s

theorem top_spillClearStep_le (st : RA) (i : Nat) :
    st.top_of_stack ≤ (spillClearStep st i).top_of_stack := by
  unfold spillClearStep
  split
  · exact Nat.le_refl _
  · rw [top_freeRegistersOf]
    exact top_spillNode_le st _

theorem top_foldl_spillClearStep_le (l : List Nat) :
    ∀ st : RA, st.top_of_stack ≤ (l.foldl spillClearStep st).top_of_stack := by
  induction l with
  | nil => intro st; exact Nat.le_refl _
  | cons a tl ih =>
    intro st
    rw [List.foldl_cons]
    exact Nat.le_trans (top_spillClearStep_le st a) (ih (spillClearStep st a))

theorem top_spillAndClearRegisters_le (s : RA) :
    s.top_of_stack ≤ (spillAndClearRegisters s).top_of_stack :=
  top_foldl_spillClearStep_le (List.range s.regCount) s

theorem top_assignInput_le (s : RA) (inp : InputRec) (s1 : RA) (op : Operand)
    (h : assignInput s inp = some (s1, op)) :
    s.top_of_stack ≤ s1.top_of_stack := by
  unfold assignInput at h
  cases ha : allocationO s inp.producer with
  | none => rw [ha] at h; exact absurd h (by simp)
  | some location =>
    rw [ha] at h
    dsimp only at h
    cases hp : inp.policy with
    | registerOrSlot =>
      rw [hp] at h
      dsimp only at h
      split at h
      · injection h with h1
        injection h1 with hA hB
        rw [← hA]
      · injection h with h1
        injection h1 with hA hB
        rw [← hA]
    | registerOrSlotOrConstant =>
      rw [hp] at h
      dsimp only at h
      split at h
      · injection h with h1
        injection h1 with hA hB
        rw [← hA]
      · injection h with h1
        injection h1 with hA hB
        rw [← hA]
    | fixedRegister r =>
      rw [hp] at h
      dsimp only at h
      split at h
      · injection h with h1
        injection h1 with hA hB
        rw [← hA]
        exact top_forceAllocate_le s r inp.producer
      · injection h with h1
        injection h1 with hA hB
        rw [← hA]
        exact top_forceAllocate_le s r inp.producer
    | mustHaveRegister =>
      rw [hp] at h
      dsimp only at h
      cases hl : location with
      | reg r =>
        rw [hl] at h
        dsimp only at h
        split at h
        · injection h with h1
          injection h1 with hA hB
          rw [← hA]
        · injection h with h1
          injection h1 with hA hB
          rw [← hA]
      | slot idx =>
        rw [hl] at h
        dsimp only at h
        cases hr : allocateRegister s inp.producer with
        | none => rw [hr] at h; exact absurd h (by simp)
        | some p =>
          obtain ⟨s2, op2⟩ := p
          rw [hr] at h
          dsimp only at h
          have h2 : s2.top_of_stack = s.top_of_stack :=
            top_allocateRegister s inp.producer s2 op2 hr
          split at h
          · injection h with h1
            injection h1 with hA hB
            rw [← hA, h2]
          · injection h with h1
            injection h1 with hA hB
            rw [← hA]
            show s.top_of_stack ≤ s2.top_of_stack
            rw [h2]

theorem top_assignInputs_le (l : List InputRec) :
    ∀ (s : RA) (s1 : RA) (ops : List Operand),
      assignInputs s l = some (s1, ops) →
      s.top_of_stack ≤ s1.top_of_stack := by
  induction l with
  | nil =>
    intro s s1 ops h
    injection h with h1
    injection h1 with hA hB
    rw [← hA]
  | cons inp rest ih =>
    intro s s1 ops h
    unfold assignInputs at h
    cases h1 : assignInput s inp with
    | none => rw [h1] at h; exact absurd h (by simp)
    | some p =>
      obtain ⟨s2, op⟩ := p
      rw [h1] at h
      dsimp only at h
      cases h2 : assignInputs s2 rest with
      | none => rw [h2] at h; exact absurd h (by simp)
      | some q =>
        obtain ⟨s3, ops2⟩ := q
        rw [h2] at h
        dsimp only at h
        injection h with h3
        injection h3 with hA hB
        rw [← hA]
        exact Nat.le_trans (top_assignInput_le s inp s2 op h1)
          (ih s2 s3 ops2 h2)

theorem top_foldl_updateInputUse (l : List InputRec) :
    ∀ s : RA, (l.foldl updateInputUse s).top_of_stack = s.top_of_stack := by
  induction l with
  | nil => intro s; rfl
  | cons a tl ih =>
    intro s
    rw [List.foldl_cons, ih (updateInputUse s a), top_updateInputUse]

theorem top_killIfInvalid (s : RA) (nid : Nat) :
    (killIfInvalid s nid).top_of_stack = s.top_of_stack := by
  unfold killIfInvalid
  split
  · rfl
  · split
    · exact top_freeRegistersOf s nid
    · rfl

theorem top_allocateNodeResult_le (s : RA) (nid : Nat) (p : ResultPolicy)
    (assigned : List Operand) (s' : RA)
    (h : allocateNodeResult s nid p assigned = some s') :
    s.top_of_stack ≤ s'.top_of_stack := by
  unfold allocateNodeResult at h
  dsimp only at h
  cases p with
  | fixedSlot idx =>
    injection h with h1
    rw [← h1, top_updNode, top_updNode]
  | fixedRegister r =>
    injection h with h1
    rw [← h1, top_killIfInvalid, top_updNode]
    exact top_forceAllocate_le
      (updNode s nid (fun v => { v with spill := none })) r nid
  | mustHaveRegister =>
    cases hr : allocateRegister (updNode s nid (fun v => { v with spill := none }))
        nid with
    | none => rw [hr] at h; exact absurd h (by simp)
    | some q =>
      obtain ⟨s1, op⟩ := q
      rw [hr] at h
      dsimp only at h
      injection h with h1
      rw [← h1, top_killIfInvalid, top_updNode]
      have h2 := top_allocateRegister _ nid s1 op hr
      rw [h2, top_updNode]
  | sameAsInput k =>
    dsimp only at h
    cases hk : assigned.get? k with
    | none =>
      rw [hk] at h
      exact absurd h (by simp)
    | some op =>
      cases op with
      | reg r =>
        rw [hk] at h
        dsimp only at h
        injection h with h1
        rw [← h1, top_killIfInvalid, top_updNode]
        exact top_forceAllocate_le
          (updNode s nid (fun v => { v with spill := none })) r nid
      | slot idx =>
        rw [hk] at h
        exact absurd h (by simp)

theorem top_allocateNode_le (s : RA) (n : NodeInfo) (s' : RA)
    (h : allocateNode s n = some s') :
    s.top_of_stack ≤ s'.top_of_stack := by
  unfold allocateNode at h
  cases h1 : assignInputs s n.inputs with
  | none => rw [h1] at h; exact absurd h (by simp)
  | some p =>
    obtain ⟨s1, assigned⟩ := p
    rw [h1] at h
    dsimp only at h
    cases h2 : assignTemporaries s1 n.temporaries_needed with
    | none => rw [h2] at h; exact absurd h (by simp)
    | some s2 =>
      rw [h2] at h
      dsimp only at h
      have hle1 : s.top_of_stack ≤ s1.top_of_stack :=
        top_assignInputs_le n.inputs s s1 assigned h1
      have hle2 : s1.top_of_stack = s2.top_of_stack :=
        (top_assignTemporaries s1 n.temporaries_needed s2 h2).symm
      have hle3 : s2.top_of_stack
          = (n.inputs.foldl updateInputUse s2).top_of_stack :=
        (top_foldl_updateInputUse n.inputs s2).symm
      have hle4 : (n.inputs.foldl updateInputUse s2).top_of_stack ≤
          (if n.is_call then
            spillAndClearRegisters (n.inputs.foldl updateInputUse s2)
          else (n.inputs.foldl updateInputUse s2)).top_of_stack := by
        by_cases hc : n.is_call = true
        · rw [if_pos hc]
          exact top_spillAndClearRegisters_le _
        · rw [if_neg hc]
      have hle5 : (if n.is_call then
            spillAndClearRegisters (n.inputs.foldl updateInputUse s2)
          else (n.inputs.foldl updateInputUse s2)).top_of_stack ≤
          (if n.can_deopt then
            spillRegisters (if n.is_call then
              spillAndClearRegisters (n.inputs.foldl updateInputUse s2)
            else (n.inputs.foldl updateInputUse s2))
          else (if n.is_call then
            spillAndClearRegisters (n.inputs.foldl updateInputUse s2)
          else (n.inputs.foldl updateInputUse s2))).top_of_stack := by
        by_cases hc : n.can_deopt = true
        · rw [if_pos hc]
          exact top_spillRegisters_le _
        · rw [if_neg hc]
      have hstart : s.top_of_stack ≤
          (if n.can_deopt then
            spillRegisters (if n.is_call then
              spillAndClearRegisters (n.inputs.foldl updateInputUse s2)
            else (n.inputs.foldl updateInputUse s2))
          else (if n.is_call then
            spillAndClearRegisters (n.inputs.foldl updateInputUse s2)
          else (n.inputs.foldl updateInputUse s2))).top_of_stack := by
        calc s.top_of_stack ≤ s1.top_of_stack := hle1
          _ = s2.top_of_stack := hle2
          _ = (n.inputs.foldl updateInputUse s2).top_of_stack := hle3
          _ ≤ _ := hle4
          _ ≤ _ := hle5
      cases hp : n.result_policy with
      | none =>
        rw [hp] at h
        dsimp only at h
        injection h with h1
        rw [← h1]
        exact hstart
      | some pol =>
        rw [hp] at h
        dsimp only at h
        exact Nat.le_trans hstart
          (top_allocateNodeResult_le _ n.nid pol assigned s' h)

theorem top_tryAllocateToInput_le (ops : List Operand) :
    ∀ (s : RA) (pid : Nat),
      s.top_of_stack ≤ (tryAllocateToInput s pid ops).top_of_stack := by
  induction ops with
  | nil => intro s pid; exact Nat.le_refl _
  | cons op rest ih =>
    intro s pid
    cases op with
    | reg r =>
      unfold tryAllocateToInput
      dsimp only
      by_cases hc : cellGet s r = none
      · rw [if_pos hc, top_updNode]
        exact top_forceAllocate_le s r pid
      · rw [if_neg hc]
        exact ih s pid
    | slot idx =>
      unfold tryAllocateToInput
      exact ih s pid

theorem top_phiReuseStep_le (st : RA) (phi : PhiRec) :
    st.top_of_stack ≤ (phiReuseStep st phi).top_of_stack := by
  unfold phiReuseStep
  have h := top_tryAllocateToInput_le phi.inputs
    (updNode st phi.pid (fun v => { v with spill := none })) phi.pid
  rw [top_updNode] at h
  exact h

theorem top_phiFreeStep_le (st : RA) (phi : PhiRec) :
    st.top_of_stack ≤ (phiFreeStep st phi).top_of_stack := by
  unfold phiFreeStep
  split
  · exact Nat.le_refl _
  · cases ht : tryAllocateRegister st phi.pid with
    | none => exact Nat.le_refl _
    | some p =>
      obtain ⟨s1, op⟩ := p
      dsimp only
      rw [top_updNode, top_tryAllocateRegister st phi.pid s1 op ht]

theorem top_phiStackStep_le (st : RA) (phi : PhiRec) :
    st.top_of_stack ≤ (phiStackStep st phi).top_of_stack := by
  unfold phiStackStep
  split
  · exact Nat.le_refl _
  · dsimp only
    cases hs : nodeSpillOf (allocateSpillSlot st phi.pid) phi.pid with
    | none => exact top_allocateSpillSlot_le st phi.pid
    | some sl =>
      rw [top_updNode]
      exact top_allocateSpillSlot_le st phi.pid

theorem top_allocatePhis_le (s : RA) (phis : List PhiRec) :
    s.top_of_stack ≤ (allocatePhis s phis).top_of_stack := by
  unfold allocatePhis phiPassOne phiPassTwo phiPassThree
  have h1 : ∀ (l : List PhiRec) (st : RA),
      st.top_of_stack ≤ (l.foldl phiReuseStep st).top_of_stack := by
    intro l
    induction l with
    | nil => intro st; exact Nat.le_refl _
    | cons a tl ih =>
      intro st
      rw [List.foldl_cons]
      exact Nat.le_trans (top_phiReuseStep_le st a) (ih (phiReuseStep st a))
  have h2 : ∀ (l : List PhiRec) (st : RA),
      st.top_of_stack ≤ (l.foldl phiFreeStep st).top_of_stack := by
    intro l
    induction l with
    | nil => intro st; exact Nat.le_refl _
    | cons a tl ih =>
      intro st
      rw [List.foldl_cons]
      exact Nat.le_trans (top_phiFreeStep_le st a) (ih (phiFreeStep st a))
  have h3 : ∀ (l : List PhiRec) (st : RA),
      st.top_of_stack ≤ (l.foldl phiStackStep st).top_of_stack := by
    intro l
    induction l with
    | nil => intro st; exact Nat.le_refl _
    | cons a tl ih =>
      intro st
      rw [List.foldl_cons]
      exact Nat.le_trans (top_phiStackStep_le st a) (ih (phiStackStep st a))
  exact Nat.le_trans (h1 phis s)
    (Nat.le_trans (h2 phis _) (h3 phis _))

theorem top_applyStep_le (st : AllocStep) (s s' : RA)
    (h : applyStep st s = some s') :
    s.top_of_stack ≤ s'.top_of_stack := by
  cases st with
  | spillOp nid =>
    injection h with h1
    rw [← h1]
    exact top_spillNode_le s nid
  | slotAllocOp nid =>
    injection h with h1
    rw [← h1]
    exact top_allocateSpillSlot_le s nid
  | updUseOp inp =>
    injection h with h1
    rw [← h1, top_updateInputUse]
  | freeOp r =>
    injection h with h1
    rw [← h1]
    exact top_free_le s r
  | forceOp r nid =>
    injection h with h1
    rw [← h1]
    exact top_forceAllocate_le s r nid
  | allocRegOp nid =>
    have h2 : Option.map (fun p => p.1) (allocateRegister s nid) = some s' := h
    cases hr : allocateRegister s nid with
    | none => rw [hr] at h2; exact absurd h2 (by simp)
    | some p =>
      obtain ⟨s1, op⟩ := p
      rw [hr] at h2
      injection h2 with h1
      rw [← h1]
      exact Nat.le_of_eq (top_allocateRegister s nid s1 op hr).symm
  | spillRegsOp =>
    injection h with h1
    rw [← h1]
    exact top_spillRegisters_le s
  | spillClearOp =>
    injection h with h1
    rw [← h1]
    exact top_spillAndClearRegisters_le s
  | tempsOp t =>
    exact Nat.le_of_eq (top_assignTemporaries s t s' h).symm
  | phisOp l =>
    injection h with h1
    rw [← h1]
    exact top_allocatePhis_le s l
  | nodeOp n =>
    exact top_allocateNode_le s n s' h

/-- Claim C9: spill-slot management.  (pop) AllocateSpillSlot pops the
recycled slot from a non-empty free-slot list, leaving top_of_stack
alone; (bump) with an empty free-slot list it hands out top_of_stack and
bumps it; (mono) no allocator operation ever decreases top_of_stack;
(once) Spill on an already-spilled node is the identity, so a node is
spilled at most once per lifetime; (recycle) UpdateInputUse grows the
free-slot list only when the producer dies at this use, and only with
the producer's slot when its index is positive. -/
theorem c9_spill_slot_management :
    (∀ (s : RA) (nid : Nat) (sl : Int) (rest : List Int),
      s.free_slots = sl :: rest →
      (allocateSpillSlot s nid).free_slots = rest ∧
      (allocateSpillSlot s nid).top_of_stack = s.top_of_stack ∧
      ((getNode s nid).isSome = true →
        nodeSpillOf (allocateSpillSlot s nid) nid = some sl)) ∧
    (∀ (s : RA) (nid : Nat),
      s.free_slots = [] →
      (allocateSpillSlot s nid).free_slots = [] ∧
      (allocateSpillSlot s nid).top_of_stack = s.top_of_stack + 1 ∧
      ((getNode s nid).isSome = true →
        nodeSpillOf (allocateSpillSlot s nid) nid
          = some (Int.ofNat s.top_of_stack))) ∧
    (∀ (st : AllocStep) (s s' : RA),
      applyStep st s = some s' → s.top_of_stack ≤ s'.top_of_stack) ∧
    (∀ (s : RA) (nid : Nat),
      (nodeSpillOf s nid).isSome = true → spillNode s nid = s) ∧
    (∀ (s : RA) (inp : InputRec),
      (updateInputUse s inp).free_slots = s.free_slots ∨
      (∃ sl : Int, 0 < sl ∧ nodeSpillOf s inp.producer = some sl ∧
        (updateInputUse s inp).free_slots = sl :: s.free_slots ∧
        (∃ v, getNode s inp.producer = some v ∧ isDeadV v = false ∧
          v.live_end < inp.next_use_id))) := by
  refine ⟨?_, ?_, top_applyStep_le, ?_, ?_⟩
  · intro s nid sl rest hfs
    rw [allocateSpillSlot_cons s nid sl rest hfs]
    refine ⟨rfl, rfl, ?_⟩
    intro hp
    cases hv : getNode s nid with
    | none => rw [hv] at hp; exact absurd hp (by simp)
    | some v =>
      unfold nodeSpillOf
      rw [getNode_updNode]
      · rw [if_pos rfl]
        have hv2 : getNode { s with free_slots := rest } nid = some v := hv
        rw [hv2]
        rfl
      · intro w; rfl
  · intro s nid hfs
    rw [allocateSpillSlot_nil s nid hfs]
    refine ⟨hfs, rfl, ?_⟩
    intro hp
    cases hv : getNode s nid with
    | none => rw [hv] at hp; exact absurd hp (by simp)
    | some v =>
      unfold nodeSpillOf
      rw [getNode_updNode]
      · rw [if_pos rfl]
        have hv2 : getNode { s with top_of_stack := s.top_of_stack + 1 } nid
            = some v := hv
        rw [hv2]
        rfl
      · intro w; rfl
  · intro s nid h
    cases hv : getNode s nid with
    | none =>
      unfold nodeSpillOf at h
      rw [hv] at h
      exact absurd h (by simp)
    | some v =>
      have hsp : v.spill.isSome = true := by
        unfold nodeSpillOf at h
        rw [hv] at h
        exact h
      have he : spillNode s nid =
          (if v.spill.isSome then s else allocateSpillSlot s nid) := by
        simp only [spillNode, hv]
      rw [he, hsp, if_pos rfl]
  · intro s inp
    cases hv : getNode s inp.producer with
    | none =>
      left
      simp only [updateInputUse, hv]
    | some v =>
      cases hd : isDeadV v with
      | true =>
        left
        simp only [updateInputUse, hv, hd, if_true]
      | false =>
        have hg1 : getNode (updNode s inp.producer
            (fun w => { w with next_use := inp.next_use_id })) inp.producer
            = some { v with next_use := inp.next_use_id } := by
          rw [getNode_updNode]
          · rw [if_pos rfl, hv]
            rfl
          · intro w; rfl
        have heq : updateInputUse s inp =
            (if isDeadV { v with next_use := inp.next_use_id } then
              (let s2 := freeRegistersOf (updNode s inp.producer
                  (fun w => { w with next_use := inp.next_use_id }))
                  inp.producer
               match ({ v with next_use := inp.next_use_id } : VNode).spill with
               | some sl => if 0 < sl then
                   { s2 with free_slots := sl :: s2.free_slots }
                 else s2
               | none => s2)
            else updNode s inp.producer
              (fun w => { w with next_use := inp.next_use_id })) := by
          simp only [updateInputUse, hv, hd, hg1]
          rfl
        rw [heq]
        cases hd1 : isDeadV { v with next_use := inp.next_use_id } with
        | false =>
          left
          simp only [Bool.false_eq_true, if_false]
          rfl
        | true =>
          have htt : (true = true) := rfl
          rw [if_pos htt]
          dsimp only
          cases hsp : v.spill with
          | none =>
            left
            dsimp only
            rw [free_slots_freeRegistersOf]
            rfl
          | some sl =>
            dsimp only
            by_cases hpos : (0 : Int) < sl
            · right
              rw [if_pos hpos]
              refine ⟨sl, hpos, ?_, ?_, v, rfl, hd, ?_⟩
              · unfold nodeSpillOf
                rw [hv]
                exact hsp
              · dsimp only
                rw [free_slots_freeRegistersOf]
                rfl
              · have h3 : isDeadV { v with next_use := inp.next_use_id }
                    = decide (v.live_end < inp.next_use_id) := rfl
                rw [h3] at hd1
                exact of_decide_eq_true hd1
            · left
              rw [if_neg hpos]
              rw [free_slots_freeRegistersOf]
              rfl

/-- Witness for C9 at concrete states: the pop case hands out slot 2 and
leaves top_of_stack at 3; the bump case raises top_of_stack to 4;
monotonicity at a concrete step; spilling the already-spilled v7 is the
identity; and the recycling disjunction at a concrete input. -/
theorem c9_spill_slot_management_w :
    (allocateSpillSlot c9s 5).free_slots = [] ∧
    (allocateSpillSlot c9s 5).top_of_stack = 3 ∧
    nodeSpillOf (allocateSpillSlot c9s 5) 5 = some 2 ∧
    (allocateSpillSlot c9s2 5).top_of_stack = 4 ∧
    c9s.top_of_stack ≤ (spillNode c9s 5).top_of_stack ∧
    spillNode c9sp 7 = c9sp ∧
    ((updateInputUse c9sp ⟨7, 25, InputPolicy.registerOrSlot⟩).free_slots
        = c9sp.free_slots ∨
      (∃ sl : Int, 0 < sl ∧ nodeSpillOf c9sp 7 = some sl ∧
        (updateInputUse c9sp ⟨7, 25, InputPolicy.registerOrSlot⟩).free_slots
          = sl :: c9sp.free_slots ∧
        (∃ v, getNode c9sp 7 = some v ∧ isDeadV v = false ∧
          v.live_end < 25))) := by
  obtain ⟨hpop, hbump, hmono, honce, hrec⟩ := c9_spill_slot_management
  obtain ⟨h1, h2, h3⟩ := hpop c9s 5 2 [] rfl
  refine ⟨h1, by rw [h2]; rfl, h3 rfl, ?_, ?_, ?_, ?_⟩
  · rw [(hbump c9s2 5 rfl).2.1]
    rfl
  · exact hmono (AllocStep.spillOp 5) c9s (spillNode c9s 5) rfl
  · exact honce c9sp 7 rfl
  · exact hrec c9sp ⟨7, 25, InputPolicy.registerOrSlot⟩

end MaglevRegalloc
